import Mathlib

/-!
Verification development for the rsync delta-transfer package (Go).

The repository contains several historical variants of the same package:

* the primary file (called V1 below): map-based signer with
  deduplication, a wire codec for signatures, and a merger without an
  index bounds check;
* an earlier variant (called P0 below, from an unnamed source file):
  sequential signer keeping every block (with Len and byte Off fields),
  a degenerate-signature test, and a merger with an index bounds check.

Bytes are modelled as Nat (values kept below 256 by construction),
Go int64 values as Int, lengths as Nat.  Go hash.Hash accumulators are
modelled by the list of bytes written so far; Sum applies the digest
function to that list, exactly as the streaming Go hashes behave.
-/

/-! ## MD5 (crypto/md5), modelled as a function on byte lists -/

namespace MD5

def mask32 : Nat := 4294967295

def add32 (x y : Nat) : Nat := (x + y) % 4294967296

def rotl32 (x s : Nat) : Nat :=
  ((x <<< s) ||| (x >>> (32 - s))) &&& mask32

def not32 (x : Nat) : Nat := mask32 ^^^ x

/-- The 64 MD5 sine-derived constants. -/
def kTable : List Nat :=
  [0xd76aa478, 0xe8c7b756, 0x242070db, 0xc1bdceee,
   0xf57c0faf, 0x4787c62a, 0xa8304613, 0xfd469501,
   0x698098d8, 0x8b44f7af, 0xffff5bb1, 0x895cd7be,
   0x6b901122, 0xfd987193, 0xa679438e, 0x49b40821,
   0xf61e2562, 0xc040b340, 0x265e5a51, 0xe9b6c7aa,
   0xd62f105d, 0x02441453, 0xd8a1e681, 0xe7d3fbc8,
   0x21e1cde6, 0xc33707d6, 0xf4d50d87, 0x455a14ed,
   0xa9e3e905, 0xfcefa3f8, 0x676f02d9, 0x8d2a4c8a,
   0xfffa3942, 0x8771f681, 0x6d9d6122, 0xfde5380c,
   0xa4beea44, 0x4bdecfa9, 0xf6bb4b60, 0xbebfbc70,
   0x289b7ec6, 0xeaa127fa, 0xd4ef3085, 0x04881d05,
   0xd9d4d039, 0xe6db99e5, 0x1fa27cf8, 0xc4ac5665,
   0xf4292244, 0x432aff97, 0xab9423a7, 0xfc93a039,
   0x655b59c3, 0x8f0ccc92, 0xffeff47d, 0x85845dd1,
   0x6fa87e4f, 0xfe2ce6e0, 0xa3014314, 0x4e0811a1,
   0xf7537e82, 0xbd3af235, 0x2ad7d2bb, 0xeb86d391]

/-- Per-round left-rotation amounts. -/
def sTable : List Nat :=
  [7, 12, 17, 22, 7, 12, 17, 22, 7, 12, 17, 22, 7, 12, 17, 22,
   5, 9, 14, 20, 5, 9, 14, 20, 5, 9, 14, 20, 5, 9, 14, 20,
   4, 11, 16, 23, 4, 11, 16, 23, 4, 11, 16, 23, 4, 11, 16, 23,
   6, 10, 15, 21, 6, 10, 15, 21, 6, 10, 15, 21, 6, 10, 15, 21]

def mixF (i b c d : Nat) : Nat :=
  if i < 16 then (b &&& c) ||| (not32 b &&& d)
  else if i < 32 then (d &&& b) ||| (not32 d &&& c)
  else if i < 48 then b ^^^ c ^^^ d
  else c ^^^ (b ||| not32 d)

def gIdx (i : Nat) : Nat :=
  if i < 16 then i
  else if i < 32 then (5 * i + 1) % 16
  else if i < 48 then (3 * i + 5) % 16
  else (7 * i) % 16

def roundStep (m : List Nat) (st : Nat × Nat × Nat × Nat) (i : Nat) :
    Nat × Nat × Nat × Nat :=
  let a := st.1
  let b := st.2.1
  let c := st.2.2.1
  let d := st.2.2.2
  let f := add32 (add32 (mixF i b c d) a)
    (add32 (kTable.getD i 0) (m.getD (gIdx i) 0))
  (d, add32 b (rotl32 f (sTable.getD i 0)), b, c)

/-- Four little-endian bytes to a 32-bit word. -/
def wordOfBytes (bs : List Nat) : Nat :=
  match bs with
  | [b0, b1, b2, b3] => b0 + b1 * 256 + b2 * 65536 + b3 * 16777216
  | _ => 0

/-- A 32-bit word to four little-endian bytes. -/
def bytesOfWord (w : Nat) : List Nat :=
  [w % 256, w / 256 % 256, w / 65536 % 256, w / 16777216 % 256]

/-- The sixteen message words of one 64-byte chunk. -/
def chunkWords (chunk : List Nat) : List Nat :=
  (List.range 16).map (fun j => wordOfBytes ((chunk.drop (4 * j)).take 4))

def processChunk (st : Nat × Nat × Nat × Nat) (chunk : List Nat) :
    Nat × Nat × Nat × Nat :=
  let m := chunkWords chunk
  let r := (List.range 64).foldl (roundStep m) st
  (add32 st.1 r.1, add32 st.2.1 r.2.1, add32 st.2.2.1 r.2.2.1,
    add32 st.2.2.2 r.2.2.2)

/-- Split a byte list into 64-byte chunks (the input length is a
multiple of 64 after padding).  Structural recursion on a fuel bound so
that the kernel can evaluate it; the fuel never runs out because each
step consumes at least one byte. -/
def toChunksAux : Nat → List Nat → List (List Nat)
  | 0, _ => []
  | _ + 1, [] => []
  | fuel + 1, b :: l => ((b :: l).take 64) :: toChunksAux fuel ((b :: l).drop 64)

def toChunks (l : List Nat) : List (List Nat) := toChunksAux l.length l

/-- MD5 padding: a 0x80 byte, zeros to 56 mod 64, then the bit length
as eight little-endian bytes. -/
def padMsg (msg : List Nat) : List Nat :=
  let len := msg.length
  let zeros := (64 + 56 - (len + 1) % 64) % 64
  let bitLen := (len * 8) % 18446744073709551616
  msg ++ [128] ++ List.replicate zeros 0 ++
    [bitLen % 256, bitLen / 256 % 256, bitLen / 65536 % 256,
     bitLen / 16777216 % 256, bitLen / 4294967296 % 256,
     bitLen / 1099511627776 % 256, bitLen / 281474976710656 % 256,
     bitLen / 72057594037927936 % 256]

def initState : Nat × Nat × Nat × Nat :=
  (0x67452301, 0xefcdab89, 0x98badcfe, 0x10325476)

end MD5

/-- The MD5 digest of a byte list, as a list of 16 bytes. -/
def md5 (msg : List Nat) : List Nat :=
  let fin := (MD5.toChunks (MD5.padMsg msg)).foldl MD5.processChunk MD5.initState
  MD5.bytesOfWord fin.1 ++ MD5.bytesOfWord fin.2.1 ++
    MD5.bytesOfWord fin.2.2.1 ++ MD5.bytesOfWord fin.2.2.2

/-! ## Adler-32 (hash/adler32): streaming state and checksum -/

/-- The running state of hash/adler32: the two mod-65521 sums.  A fresh
digest has a = 1, b = 0; Reset restores that state. -/
structure Adler where
  a : Nat
  b : Nat
deriving DecidableEq, Repr

def Adler.new : Adler := ⟨1, 0⟩

def Adler.writeByte (st : Adler) (x : Nat) : Adler :=
  let a := (st.a + x) % 65521
  ⟨a, (st.b + a) % 65521⟩

def Adler.write (st : Adler) (bs : List Nat) : Adler :=
  bs.foldl Adler.writeByte st

def Adler.sum32 (st : Adler) : Nat := st.b * 65536 + st.a

/-- adler32.Checksum of a byte list. -/
def adler32 (bs : List Nat) : Nat := (Adler.new.write bs).sum32

/-! ## hex.EncodeToString (lowercase hex) -/

def hexDigit (n : Nat) : Char :=
  if n < 10 then Char.ofNat (48 + n) else Char.ofNat (87 + n)

def hexEncode (bs : List Nat) : String :=
  String.mk (bs.foldr (fun b acc => hexDigit (b / 16) :: hexDigit (b % 16) :: acc) [])

/-- Outcome of a Go call: normal value, returned error, or runtime panic. -/
inductive GoRes (α : Type) where
  | ok (a : α)
  | error (e : String)
  | panicked (e : String)
deriving DecidableEq, Repr

def GoRes.isError {α : Type} : GoRes α → Bool
  | .error _ => true
  | _ => false

def GoRes.isPanic {α : Type} : GoRes α → Bool
  | .panicked _ => true
  | _ => false

/-- bytes.Buffer.Read into a slice of length n: io.EOF when the buffer is
empty and n is positive, otherwise it fills a prefix of the slice with up
to n bytes.  Returns the bytes read and the remaining buffer. -/
def bufferRead (buf : List Nat) (n : Nat) : Except String (List Nat × List Nat) :=
  if buf.isEmpty ∧ n ≠ 0 then .error "EOF"
  else .ok (buf.take n, buf.drop n)

/-- Copying bytes into the front of a fixed-size Go slice: the prefix is
overwritten, the tail keeps its previous contents. -/
def sliceFill (dst src : List Nat) : List Nat := src ++ dst.drop src.length

/-! ## V1: the primary source file (map-based signer, wire codec) -/

namespace V1

def DefaultBlockSize : Nat := 1024

/-- HashBlock: Idx and Off are uint32 (Off is a block number), H1/H2 the
two 16-bit halves of the adler32 sum, H3 the md5 sum (16 bytes). -/
structure HashBlock where
  Idx : Nat
  Off : Nat
  H1 : Nat
  H2 : Nat
  H3 : List Nat
deriving DecidableEq, Repr

def tobyte16 (v : Nat) : List Nat := [v &&& 255, (v >>> 8) &&& 255]

/-- touint16 panics unless the slice has length two; all call sites pass
two-byte slices, so the default branch is dead code. -/
def touint16 (b : List Nat) : Nat :=
  match b with
  | [b0, b1] => b0 ||| (b1 <<< 8)
  | _ => 0

def tobyte32 (v : Nat) : List Nat :=
  [v &&& 255, (v >>> 8) &&& 255, (v >>> 16) &&& 255, (v >>> 24) &&& 255]

/-- touint32, with the same dead panic branch as touint16. -/
def touint32 (b : List Nat) : Nat :=
  match b with
  | [b0, b1, b2, b3] => b0 ||| (b1 <<< 8) ||| (b2 <<< 16) ||| (b3 <<< 24)
  | _ => 0

/-- HashBlock.Read: fills Idx from the argument and the remaining fields
from the buffer (H1, H2 via a shared 2-byte scratch slice, Off via a
4-byte slice, H3 into the zeroed 16-byte array). -/
def HashBlock.read (idx : Nat) (buf : List Nat) :
    Except String (HashBlock × List Nat) := do
  let b1 := [0, 0]
  let (g, buf) ← bufferRead buf 2
  let b1 := sliceFill b1 g
  let h1 := touint16 b1
  let (g, buf) ← bufferRead buf 2
  let b1 := sliceFill b1 g
  let h2 := touint16 b1
  let b2 := [0, 0, 0, 0]
  let (g, buf) ← bufferRead buf 4
  let b2 := sliceFill b2 g
  let off := touint32 b2
  let h3 := List.replicate 16 0
  let (g, buf) ← bufferRead buf 16
  let h3 := sliceFill h3 g
  .ok ({ Idx := idx, Off := off, H1 := h1, H2 := h2, H3 := h3 }, buf)

/-- HashBlock.Write: H1, H2, Off, H3 in order (Idx is not serialized). -/
def HashBlock.write (b : HashBlock) : List Nat :=
  tobyte16 b.H1 ++ tobyte16 b.H2 ++ tobyte32 b.Off ++ b.H3

/-- HashBlockEqual, including the source's comparison of b2.H2 with
itself where b1.H2 was evidently intended. -/
def HashBlockEqual (b1 b2 : HashBlock) : Bool :=
  if b1.H1 ≠ b2.H1 then false
  else if b2.H2 ≠ b2.H2 then false
  else b1.H3 == b2.H3

/-- HashInfo: MD5 is an Option because Go distinguishes a nil slice
(checked by Write and HashInfoEqual) from an allocated one. -/
structure HashInfo where
  Blocks : List HashBlock
  MD5 : Option (List Nat)
  BlockSize : Nat
deriving DecidableEq, Repr

def NewHashInfo : HashInfo := { Blocks := [], MD5 := none, BlockSize := 0 }

/-- The loop of HashInfo.Read: parse 24-byte block records until the
buffer is exhausted.  Fuel is the buffer length plus one; every
iteration consumes at least one byte, so the fuel branch is dead. -/
def readBlocksLoop : Nat → Nat → List Nat → List HashBlock →
    Except String (List HashBlock)
  | 0, _, _, _ => .error "fuel"
  | fuel + 1, idx, buf, acc =>
    if buf.isEmpty then .ok acc
    else do
      let (b, buf') ← HashBlock.read idx buf
      readBlocksLoop fuel (idx + 1) buf' (acc ++ [b])

/-- HashInfo.Read: no-op on an empty buffer; otherwise 16 bytes of MD5,
2 bytes of block size, then block records with Idx assigned 0, 1, 2, …
in stream order. -/
def HashInfo.read (this : HashInfo) (buf : List Nat) : Except String HashInfo := do
  if buf.isEmpty then return this
  let md := match this.MD5 with
    | some m => if m.length = 16 then m else List.replicate 16 0
    | none => List.replicate 16 0
  let (g, buf) ← bufferRead buf 16
  let md := sliceFill md g
  let bb := [0, 0]
  let (g, buf) ← bufferRead buf 2
  let bb := sliceFill bb g
  let bsize := touint16 bb
  let blocks ← readBlocksLoop (buf.length + 1) 0 buf []
  .ok { Blocks := this.Blocks ++ blocks, MD5 := some md, BlockSize := bsize }

/-- HashInfo.Write: nothing when MD5 is nil; otherwise MD5, the two
block-size bytes, then each block's record. -/
def HashInfo.write (this : HashInfo) : List Nat :=
  match this.MD5 with
  | none => []
  | some m =>
    m ++ [this.BlockSize &&& 255, (this.BlockSize >>> 8) &&& 255] ++
      (this.Blocks.map HashBlock.write).flatten

/-- The HashMap built by GetMap keyed on H1; a bucket holds the blocks
with that H1 in slice order, so lookup is a filter over the blocks the
map was built from. -/
def HashMap' := List HashBlock

def getMapBucket (mp : HashMap') (h1 : Nat) : List HashBlock :=
  mp.filter (fun v => v.H1 == h1)

def HashInfo.getMap (this : HashInfo) : HashMap' := this.Blocks

def PassH1 (mp : HashMap') (h : Nat) : Nat × Bool :=
  let h1 := h &&& 65535
  let hs := getMapBucket mp h1
  if hs.isEmpty then (0, false)
  else
    match hs.find? (fun v => v.H1 == h1) with
    | some v => (v.Idx, true)
    | none => (0, false)

def PassH2 (mp : HashMap') (h : Nat) : Nat × Bool :=
  let h1 := h &&& 65535
  let h2 := (h >>> 16) &&& 65535
  let hs := getMapBucket mp h1
  if hs.isEmpty then (0, false)
  else
    match hs.find? (fun v => v.H1 == h1 && v.H2 == h2) with
    | some v => (v.Idx, true)
    | none => (0, false)

def PassH3 (mp : HashMap') (h : Nat) (mv : List Nat) : Nat × Bool :=
  let h1 := h &&& 65535
  let h2 := (h >>> 16) &&& 65535
  let hs := getMapBucket mp h1
  if hs.isEmpty then (0, false)
  else
    match hs.find? (fun v => v.H1 == h1 && v.H2 == h2 && v.H3 == mv) with
    | some v => (v.Idx, true)
    | none => (0, false)

def HashInfo.isEmpty (this : HashInfo) : Bool := this.Blocks.isEmpty

/-- bytes.Equal treats a nil slice like an empty one. -/
def optBytes : Option (List Nat) → List Nat
  | none => []
  | some l => l

def HashInfoEqual (h1 h2 : HashInfo) : Bool :=
  if h1.MD5.isNone && h2.MD5.isNone then true
  else if !(optBytes h1.MD5 == optBytes h2.MD5) then false
  else if h1.BlockSize ≠ h2.BlockSize then false
  else if h1.Blocks.length ≠ h2.Blocks.length then false
  else (List.zip h1.Blocks h2.Blocks).all (fun p => HashBlockEqual p.1 p.2)

/-! ### FileMerger -/

/-- The two on-disk files a merger touches: the target at Path and the
temporary file at Path plus a tmp suffix.  none means the file is absent. -/
structure Fs where
  orig : Option (List Nat)
  tmp : Option (List Nat)
deriving DecidableEq, Repr

/-- FileMerger state.  WFile and RFile are modelled by whether the handle
is open (the written bytes live in fs.tmp, reads come from fs.orig);
Hash is the byte stream fed to the running md5. -/
structure FileMerger where
  wOpen : Bool
  rOpen : Bool
  Size : Int
  Hash : List Nat
  Info : HashInfo
  fs : Fs
deriving DecidableEq, Repr

def NewFileMerger (fs : Fs) (hi : HashInfo) : FileMerger :=
  { wOpen := false, rOpen := false, Size := 0, Hash := [], Info := hi, fs := fs }

/-- AnalyseInfo: Index is uint32, Off int64, Data and Hash byte slices,
Type the bitmask.  The HashFile back-pointer carries no data and is
omitted. -/
structure AnalyseInfo where
  Index : Nat
  Off : Int
  Data : List Nat
  type : Nat
  Hash : List Nat
deriving DecidableEq, Repr

def AnalyseTypeOpen : Nat := 1
def AnalyseTypeData : Nat := 2
def AnalyseTypeIndex : Nat := 4
def AnalyseTypeClose : Nat := 8

def AnalyseInfo.IsOpen (i : AnalyseInfo) : Bool := (i.type &&& AnalyseTypeOpen) != 0
def AnalyseInfo.IsData (i : AnalyseInfo) : Bool := (i.type &&& AnalyseTypeData) != 0
def AnalyseInfo.IsClose (i : AnalyseInfo) : Bool := (i.type &&& AnalyseTypeClose) != 0
def AnalyseInfo.IsIndex (i : AnalyseInfo) : Bool := (i.type &&& AnalyseTypeIndex) != 0

/-- The all-zero AnalyseInfo, as allocated before the type is set. -/
def AnalyseInfo.zero : AnalyseInfo :=
  { Index := 0, Off := 0, Data := [], type := 0, Hash := [] }

/-- FileMerger.open: create/truncate the temp file, open the target
read-only if it exists. -/
def FileMerger.openM (m : FileMerger) (siz : Int) : FileMerger :=
  { m with
    Size := siz
    wOpen := true
    rOpen := m.fs.orig.isSome
    fs := { m.fs with tmp := some [] } }

def FileMerger.doOpen (m : FileMerger) (hi : AnalyseInfo) : FileMerger × GoRes Unit :=
  (m.openM hi.Off, .ok ())

/-- FileMerger.doData: the bytes are fed to the running hash first, then
written to the temp file; writing on a nil WFile is an os error. -/
def FileMerger.doData (m : FileMerger) (hi : AnalyseInfo) : FileMerger × GoRes Unit :=
  let m := { m with Hash := m.Hash ++ hi.Data }
  if m.wOpen then
    ({ m with fs := { m.fs with tmp := some (m.fs.tmp.getD [] ++ hi.Data) } }, .ok ())
  else (m, .error "invalid argument")

/-- FileMerger.ReadBlock: BlockSize bytes of the target at block number
Off.  A read at or past end of file is io.EOF; a short read is the
num error. -/
def FileMerger.readBlock (m : FileMerger) (b : HashBlock) : GoRes (List Nat) :=
  if !m.rOpen then .error "not found file"
  else
    let content := m.fs.orig.getD []
    let off := b.Off * m.Info.BlockSize
    if m.Info.BlockSize = 0 then .ok []
    else if off ≥ content.length then .error "EOF"
    else
      let data := (content.drop off).take m.Info.BlockSize
      if data.length ≠ m.Info.BlockSize then .error "read file data num error"
      else .ok data

/-- FileMerger.doIndex: the block is fetched by Blocks index with no
bounds check, so an out-of-range Index is a runtime panic. -/
def FileMerger.doIndex (m : FileMerger) (hi : AnalyseInfo) : FileMerger × GoRes Unit :=
  if h : hi.Index < m.Info.Blocks.length then
    let b := m.Info.Blocks.get ⟨hi.Index, h⟩
    match m.readBlock b with
    | .error e => (m, .error e)
    | .panicked e => (m, .panicked e)
    | .ok data =>
      let m := { m with Hash := m.Hash ++ data }
      if m.wOpen then
        ({ m with fs := { m.fs with tmp := some (m.fs.tmp.getD [] ++ data) } }, .ok ())
      else (m, .error "invalid argument")
  else (m, .panicked "index out of range")

/-- FileMerger.attach: close and remove the target if it was open, close
the temp file and rename it over the target path. -/
def FileMerger.attach (m : FileMerger) : FileMerger × GoRes Unit :=
  let step :=
    if m.rOpen then
      match m.fs.orig with
      | none => ({ m with rOpen := false }, GoRes.error "remove error")
      | some _ =>
        ({ m with rOpen := false, fs := { m.fs with orig := none } }, GoRes.ok ())
    else (m, GoRes.ok ())
  match step with
  | (m, .ok _) =>
    let m := { m with wOpen := false }
    match m.fs.tmp with
    | none => (m, .error "rename error")
    | some t => ({ m with fs := { orig := some t, tmp := none } }, .ok ())
  | other => other

/-- FileMerger.doClose: compare the running md5 against the instruction
hash; on mismatch return the hash error (leaving both files as they
are), on match publish via attach. -/
def FileMerger.doClose (m : FileMerger) (hi : AnalyseInfo) : FileMerger × GoRes Unit :=
  let mv := md5 m.Hash
  if !(mv == hi.Hash) then (m, .error "hash error")
  else m.attach

/-- FileMerger.Write: the OPEN, DATA, INDEX, CLOSE phases in order,
stopping at the first failure. -/
def FileMerger.write (m : FileMerger) (hi : AnalyseInfo) : FileMerger × GoRes Unit :=
  let s1 := if hi.IsOpen then m.doOpen hi else (m, .ok ())
  match s1 with
  | (m, .ok _) =>
    let s2 := if hi.IsData then m.doData hi else (m, .ok ())
    match s2 with
    | (m, .ok _) =>
      let s3 := if hi.IsIndex then m.doIndex hi else (m, .ok ())
      match s3 with
      | (m, .ok _) =>
        if hi.IsClose then m.doClose hi else (m, .ok ())
      | other => other
    | other => other
  | other => other

/-- Feeding a whole instruction stream to FileMerger.Write in order,
stopping at the first failure, as the Analyse callback in the tests does. -/
def mergerRun (m : FileMerger) : List AnalyseInfo → FileMerger × GoRes Unit
  | [] => (m, .ok ())
  | hi :: rest =>
    match m.write hi with
    | (m', .ok _) => mergerRun m' rest
    | other => other

/-! ### FileReader -/

/-- FileReader: a read-ahead cache over the source file.  Buf holds the
cached bytes starting at file offset Off; Hash is the byte stream fed to
the whole-file md5 (bytes enter it only on the cache-miss path). -/
structure FileReader where
  Size : Nat
  Off : Int
  Buf : List Nat
  Hash : List Nat
deriving DecidableEq, Repr

def NewFileReader (siz : Nat) : FileReader :=
  { Size := siz, Off := 0, Buf := [], Hash := [] }

/-- FileReader.Read of one byte at offset from the source contents S.
On a cache hit the byte comes from Buf; on a miss the file is read at
offset for up to Size bytes which are appended to Buf and to the hash
stream, and the byte is then taken from Buf at the original index,
which panics if that index is still out of range. -/
def FileReader.read (r : FileReader) (S : List Nat) (offset : Int) :
    FileReader × GoRes Nat :=
  let ds := r.Buf
  let idx := offset - r.Off
  if 0 ≤ idx ∧ idx < ds.length then
    (r, .ok (ds.getD idx.toNat 0))
  else if offset < 0 then (r, .error "invalid argument")
  else if r.Size ≠ 0 ∧ offset ≥ (S.length : Int) then (r, .error "EOF")
  else
    let chunk := (S.drop offset.toNat).take r.Size
    let r := { r with Buf := r.Buf ++ chunk, Hash := r.Hash ++ chunk }
    let ds := r.Buf
    if ds.length > 0 then
      if 0 ≤ idx ∧ idx < ds.length then (r, .ok (ds.getD idx.toNat 0))
      else (r, .panicked "index out of range")
    else (r, .error "EOF")

/-- FileReader.Truncate: drop up to size bytes from the cache front and
advance Off by the number actually dropped; io.EOF when the cache is
empty and size is positive. -/
def FileReader.truncate (r : FileReader) (size : Nat) : FileReader × Except String Unit :=
  if size = 0 then (r, .ok ())
  else if r.Buf.isEmpty then (r, .error "EOF")
  else
    let num := min size r.Buf.length
    ({ r with Buf := r.Buf.drop size, Off := r.Off + num }, .ok ())

/-! ### FileHashInfo: signer and matcher -/

/-- FileHashInfo.  File is the opened file's contents (none while not
open); Blocks is the map keyed by hex md5, kept in insertion order. -/
structure FileHashInfo where
  Info : Option HashInfo
  File : Option (List Nat)
  Blocks : List (String × HashBlock)
  Count : Int
  MD5 : Option (List Nat)
  BlockSize : Nat
  FileSize : Int
deriving DecidableEq, Repr

/-- NewFileHashInfo with an int argument (a block size): the int is
converted to the uint16 BlockSize field, wrapping modulo 2^16. -/
def NewFileHashInfoB (bsize : Nat) : FileHashInfo :=
  { Info := none, File := none, Blocks := [], Count := 0, MD5 := none,
    BlockSize := bsize % 65536, FileSize := 0 }

/-- NewFileHashInfo with a HashInfo argument (BlockSize is copied from
the uint16 field with no conversion). -/
def NewFileHashInfoI (hi : HashInfo) : FileHashInfo :=
  { Info := some hi, File := none, Blocks := [], Count := 0, MD5 := none,
    BlockSize := hi.BlockSize, FileSize := 0 }

/-- FileHashInfo.Open over the file at Path, whose contents are disk
(none when the file does not exist: stat fails, which Open treats as
success without opening anything).  A size-0 file is likewise left
unopened. -/
def FileHashInfo.openFile (this : FileHashInfo) (disk : Option (List Nat)) :
    Except String FileHashInfo :=
  if this.BlockSize = 0 then .error "block size error"
  else
    match disk with
    | none => .ok this
    | some content =>
      if content.length = 0 then .ok { this with FileSize := 0 }
      else
        let count : Int :=
          if content.length % this.BlockSize = 0 then content.length / this.BlockSize
          else content.length / this.BlockSize + 1
        .ok { this with
          FileSize := content.length
          Count := count
          File := some content }

/-- FileHashInfo.CheckPass: the three gates.  The final Blocks lookup by
the index PassH3 returned has no bounds check. -/
def FileHashInfo.checkPass (this : FileHashInfo) (mp : HashMap')
    (buf : List Nat) (hh : Adler) : GoRes (Nat × Bool) :=
  if buf.length < this.BlockSize then .ok (0, false)
  else
    let h12 := hh.sum32
    match PassH1 mp h12 with
    | (_, false) => .ok (0, false)
    | (_, true) =>
      match PassH2 mp h12 with
      | (_, false) => .ok (0, false)
      | (_, true) =>
        let h3 := md5 buf
        match PassH3 mp h12 h3 with
        | (_, false) => .ok (0, false)
        | (o, true) =>
          match this.Info with
          | none => .panicked "nil pointer"
          | some info =>
            if h : o < info.Blocks.length then
              .ok ((info.Blocks.get ⟨o, h⟩).Idx, true)
            else .panicked "index out of range"

/-- What an instruction sink returns to Analyse: success, an error
value, or a panic that unwinds through Analyse. -/
inductive Signal where
  | ok
  | err (e : String)
  | panic (e : String)
deriving DecidableEq, Repr

/-- An instruction sink with private state, as the Go callback closure. -/
def Sink (σ : Type) := σ → AnalyseInfo → σ × Signal

/-- A sink that accepts everything. -/
def okSink : Sink Unit := fun s _ => (s, .ok)

/-- How FileHashInfo.Analyse ends: normally, with the error it returns,
or by a panic.  fuelOut is unreachable for the fuel Analyse supplies. -/
inductive ARes where
  | done
  | fail (e : String)
  | panicked (e : String)
  | fuelOut
deriving DecidableEq, Repr

/-- The mutable state of the Analyse main loop: the file cursor, the
window and literal buffers, the rolling adler, the FileReader, plus the
trace of instructions delivered so far and the sink state. -/
structure AState (σ : Type) where
  foff : Int
  rbuf : List Nat
  wbuf : List Nat
  adler : Adler
  rd : FileReader
  tr : List AnalyseInfo
  s : σ

def Signal.toARes : Signal → ARes
  | .ok => .done
  | .err e => .fail e
  | .panic e => .panicked e

/-- The outcome of one iteration of the Analyse main loop: either
continue with the next state, or leave the loop with a result. -/
inductive StepRes (σ : Type) where
  | next (st : AState σ)
  | exit (st : AState σ) (res : ARes)

/-- The two buffer-overflow checks at the bottom of the Analyse loop
body (window overflow spilling one byte into the literal with the foff
rewind, then the literal flush), ending one iteration. -/
def afterChecks {σ : Type} (bsize : Nat) (fn : Sink σ) (st : AState σ) :
    StepRes σ :=
  let step1 :=
    if st.rbuf.length ≥ bsize then
      let st := { st with
        adler := Adler.new
        foff := st.foff - ((st.rbuf.length : Int) - 1) }
      match st.rbuf with
      | [] => (st, some (ARes.fail "EOF"))
      | x :: _ => ({ st with wbuf := st.wbuf ++ [x], rbuf := [] }, none)
    else (st, none)
  match step1 with
  | (st, some res) => .exit st res
  | (st, none) =>
    if st.wbuf.length ≥ bsize then
      let info1 := { AnalyseInfo.zero with
        type := AnalyseTypeData
        Data := st.wbuf
        Off := st.foff - ((st.wbuf.length : Int) - 1) }
      let st := { st with tr := st.tr ++ [info1] }
      let (s1, sg) := fn st.s info1
      let st := { st with s := s1 }
      match sg with
      | .ok =>
        match FileReader.truncate st.rd st.wbuf.length with
        | (rd, .error e) => .exit { st with rd := rd } (.fail e)
        | (rd, .ok _) => .next { st with rd := rd, wbuf := [], foff := st.foff + 1 }
      | sg => .exit st sg.toARes
    else
      .next { st with foff := st.foff + 1 }

/-- One iteration of the FileHashInfo.Analyse (V1) main loop, including
the tail flush and CLOSE emission once foff reaches the file size.
S is the source contents, info the signature, mp the weak-hash map,
bsize the block size and fsize the file size. -/
def analyseStep {σ : Type} (S : List Nat) (info : HashInfo) (mp : HashMap')
    (bsize : Nat) (fsize : Int) (fn : Sink σ) (st : AState σ) : StepRes σ :=
  if st.foff < fsize then
    if info.isEmpty then
      -- the signature is empty: stream the file through raw seek+read
      if st.foff < 0 then .exit st (.fail "invalid argument")
      else if bsize ≠ 0 ∧ st.foff ≥ (S.length : Int) then .exit st (.fail "EOF")
      else
        let chunk := (S.drop st.foff.toNat).take bsize
        let st := { st with rd := { st.rd with Hash := st.rd.Hash ++ chunk } }
        let info1 := { AnalyseInfo.zero with type := AnalyseTypeData, Data := chunk }
        let st := { st with
          foff := st.foff + ((chunk.length : Int) - 1)
          tr := st.tr ++ [info1] }
        let (s1, sg) := fn st.s info1
        let st := { st with s := s1 }
        match sg with
        | .ok => afterChecks bsize fn st
        | _ =>
          -- source bug: on a sink failure the callback is invoked again
          -- and its second result is returned
          let st := { st with tr := st.tr ++ [info1] }
          let (s2, sg2) := fn st.s info1
          .exit { st with s := s2 } sg2.toARes
    else
      match FileReader.read st.rd S st.foff with
      | (rd, .error e) => .exit { st with rd := rd } (.fail e)
      | (rd, .panicked e) => .exit { st with rd := rd } (.panicked e)
      | (rd, .ok one) =>
        let st := { st with
          rd := rd
          rbuf := st.rbuf ++ [one]
          adler := st.adler.writeByte one }
        match FileHashInfo.checkPass ⟨some info, some S, [], 0, none, bsize, fsize⟩
            mp st.rbuf st.adler with
        | .panicked e => .exit st (.panicked e)
        | .error e => .exit st (.fail e)
        | .ok (idx, true) =>
          let st := { st with adler := Adler.new }
          let info1 :=
            if st.wbuf.length > 0 then
              { AnalyseInfo.zero with
                type := AnalyseTypeIndex ||| AnalyseTypeData
                Index := idx
                Data := st.wbuf
                Off := st.foff - ((st.wbuf.length : Int) + st.rbuf.length - 1) }
            else
              { AnalyseInfo.zero with
                type := AnalyseTypeIndex
                Index := idx
                Off := st.foff - ((st.wbuf.length : Int) + st.rbuf.length - 1) }
          let st := { st with tr := st.tr ++ [info1] }
          let (s1, sg) := fn st.s info1
          let st := { st with s := s1 }
          match sg with
          | .ok =>
            match FileReader.truncate st.rd (st.wbuf.length + st.rbuf.length) with
            | (rd, .error e) => .exit { st with rd := rd } (.fail e)
            | (rd, .ok _) =>
              .next { st with rd := rd, wbuf := [], rbuf := [], foff := st.foff + 1 }
          | sg => .exit st sg.toARes
        | .ok (_, false) => afterChecks bsize fn st
  else
    -- loop exit: move the window remainder to the literal and CLOSE
    let wb := st.wbuf ++ st.rbuf
    let info0 := { AnalyseInfo.zero with
      type := AnalyseTypeClose
      Hash := md5 st.rd.Hash }
    let infoC :=
      if wb.length > 0 then
        { info0 with
          type := AnalyseTypeClose ||| AnalyseTypeData
          Data := wb
          Off := fsize - (wb.length : Int) }
      else info0
    let st := { st with wbuf := wb, rbuf := [], tr := st.tr ++ [infoC] }
    let (s1, sg) := fn st.s infoC
    .exit { st with s := s1 } sg.toARes

/-- The Analyse main loop: iterate analyseStep.  One fuel unit is one
iteration; the fuel Analyse passes overapproximates the number of
iterations of any terminating run this development reasons about. -/
def analyseLoop {σ : Type} (S : List Nat) (info : HashInfo) (mp : HashMap')
    (bsize : Nat) (fsize : Int) (fn : Sink σ) :
    Nat → AState σ → AState σ × ARes
  | 0, st => (st, .fuelOut)
  | fuel + 1, st =>
    match analyseStep S info mp bsize fsize fn st with
    | .exit st res => (st, res)
    | .next st => analyseLoop S info mp bsize fsize fn fuel st

/-- FileHashInfo.Analyse: nil checks, the OPEN instruction, then the
main loop over the source bytes. -/
def analyse {σ : Type} (fh : FileHashInfo) (fn : Sink σ) (s0 : σ) :
    List AnalyseInfo × σ × ARes :=
  match fh.Info with
  | none => ([], s0, .fail "info nil")
  | some info =>
    match fh.File with
    | none => ([], s0, .fail "file not open")
    | some S =>
      let infoO := { AnalyseInfo.zero with type := AnalyseTypeOpen, Off := fh.FileSize }
      let (s1, sg) := fn s0 infoO
      match sg with
      | .err e => ([infoO], s1, .fail e)
      | .panic e => ([infoO], s1, .panicked e)
      | .ok =>
        let mp := info.getMap
        let st0 : AState σ :=
          { foff := 0, rbuf := [], wbuf := [], adler := Adler.new,
            rd := NewFileReader fh.BlockSize, tr := [infoO], s := s1 }
        let fuel := (S.length + 2) * (fh.BlockSize + 2) + 2
        let (st, res) := analyseLoop S info mp fh.BlockSize fh.FileSize fn fuel st0
        (st.tr, st.s, res)

/-! ### The map-based signer -/

/-- Membership test of the Blocks map. -/
def mapHasKey (m : List (String × HashBlock)) (k : String) : Bool :=
  m.any (fun p => p.1 == k)

/-- The loop of FillHashInfo: for each block number i read a BlockSize
chunk, stop at the first short chunk, hash full chunks into the running
file md5, and record a HashBlock in the map unless its md5 hex was seen
before.  idx counts only recorded blocks; it and the block number are
stored through their uint32 conversions (modulo 2^32).  The first
component of the result is the map, the second the bytes fed to the
file md5. -/
def fillLoop (T : List Nat) (B : Nat) :
    Nat → Nat → Nat → List Nat → List (String × HashBlock) →
    Except String (List (String × HashBlock) × List Nat)
  | 0, _, _, facc, m => .ok (m, facc)
  | rem + 1, i, idx, facc, m =>
    let dat := (T.drop (i * B)).take B
    if dat.isEmpty ∧ B ≠ 0 then .error "read file error"
    else if dat.length ≠ B then .ok (m, facc)
    else
      let facc := facc ++ dat
      let acs := adler32 dat
      let h3 := md5 dat
      let hb : HashBlock :=
        { Idx := idx % 4294967296
          Off := i % 4294967296
          H1 := acs &&& 65535
          H2 := (acs >>> 16) &&& 65535
          H3 := h3 }
      let ms := hexEncode h3
      if mapHasKey m ms then fillLoop T B rem (i + 1) idx facc m
      else fillLoop T B rem (i + 1) (idx + 1) facc (m ++ [(ms, hb)])

/-- FileHashInfo.FillHashInfo.  The HashBlock callback only observes
blocks and is omitted. -/
def FileHashInfo.fillHashInfo (this : FileHashInfo) : Except String FileHashInfo :=
  if this.FileSize = 0 then .ok this
  else
    match this.File with
    | none => .error "file not open"
    | some T => do
      let (m, facc) ← fillLoop T this.BlockSize this.Count.toNat 0 0 [] this.Blocks
      .ok { this with Blocks := m, MD5 := some (md5 facc) }

/-- Insertion of a block into an Idx-sorted list, and insertion sort:
the model of sort.Slice by Idx in GetHashInfo (the map values carry
pairwise-distinct Idx, so the sorted result is unique). -/
def insertByIdx (b : HashBlock) : List HashBlock → List HashBlock
  | [] => [b]
  | c :: rest => if b.Idx < c.Idx then b :: c :: rest else c :: insertByIdx b rest

def sortByIdx (l : List HashBlock) : List HashBlock := l.foldr insertByIdx []

/-- FileHashInfo.GetHashInfo: the map values sorted by Idx. -/
def FileHashInfo.getHashInfo (this : FileHashInfo) : HashInfo :=
  { Blocks := sortByIdx (this.Blocks.map Prod.snd), MD5 := this.MD5,
    BlockSize := this.BlockSize }

/-- GetFileHashInfo: open, fill, return the signature. -/
def GetFileHashInfo (disk : Option (List Nat)) (bsize : Nat) :
    Except String HashInfo := do
  let df ← (NewFileHashInfoB bsize).openFile disk
  let df ← df.fillHashInfo
  .ok df.getHashInfo

end V1

/-! ## P0: the earlier variant (unnamed source file, part 000) -/

namespace P0

/-- HashBlock of the earlier variant: Idx is an int, Len the block data
length, Off the byte offset of the block in the target. -/
structure HashBlock where
  Idx : Int
  H1 : Nat
  H2 : Nat
  H3 : List Nat
  Len : Nat
  Off : Int
deriving DecidableEq, Repr

/-- HashBlockEqual, with the same b2.H2-against-itself typo as V1. -/
def HashBlockEqual (b1 b2 : HashBlock) : Bool :=
  if b1.H1 ≠ b2.H1 then false
  else if b2.H2 ≠ b2.H2 then false
  else b1.H3 == b2.H3

structure HashInfo where
  Blocks : List HashBlock
  MD5 : Option (List Nat)
  BlockSize : Nat
deriving DecidableEq, Repr

/-- HashInfo.IsEmpty: no blocks, or a single block shorter than the
block size (the degenerate signature). -/
def HashInfo.isEmpty (this : HashInfo) : Bool :=
  if this.Blocks.length = 0 then true
  else if this.Blocks.length = 1 ∧
      (this.Blocks.headD ⟨0, 0, 0, [], 0, 0⟩).Len < this.BlockSize then true
  else false

/-- AnalyseInfo of the earlier variant: Index is an int (the CheckPass
failure codes are negative). -/
structure AnalyseInfo where
  Index : Int
  Off : Int
  Data : List Nat
  type : Nat
  Hash : List Nat
deriving DecidableEq, Repr

def AnalyseInfo.IsOpen (i : AnalyseInfo) : Bool := (i.type &&& 1) != 0
def AnalyseInfo.IsData (i : AnalyseInfo) : Bool := (i.type &&& 2) != 0
def AnalyseInfo.IsClose (i : AnalyseInfo) : Bool := (i.type &&& 8) != 0
def AnalyseInfo.IsIndex (i : AnalyseInfo) : Bool := (i.type &&& 4) != 0

/-- FileMerger of the earlier variant, over the same file-system model
as V1. -/
structure FileMerger where
  wOpen : Bool
  rOpen : Bool
  Size : Int
  Hash : List Nat
  Info : HashInfo
  fs : V1.Fs
deriving DecidableEq, Repr

def NewFileMerger (fs : V1.Fs) (hi : HashInfo) : FileMerger :=
  { wOpen := false, rOpen := false, Size := 0, Hash := [], Info := hi, fs := fs }

def FileMerger.openM (m : FileMerger) (siz : Int) : FileMerger :=
  { m with
    Size := siz
    wOpen := true
    rOpen := m.fs.orig.isSome
    fs := { m.fs with tmp := some [] } }

def FileMerger.doOpen (m : FileMerger) (hi : AnalyseInfo) : FileMerger × GoRes Unit :=
  (m.openM hi.Off, .ok ())

def FileMerger.doData (m : FileMerger) (hi : AnalyseInfo) : FileMerger × GoRes Unit :=
  let m := { m with Hash := m.Hash ++ hi.Data }
  if m.wOpen then
    ({ m with fs := { m.fs with tmp := some (m.fs.tmp.getD [] ++ hi.Data) } }, .ok ())
  else (m, .error "invalid argument")

/-- FileMerger.ReadBlock: Len bytes of the target at byte offset Off. -/
def FileMerger.readBlock (m : FileMerger) (b : HashBlock) : GoRes (List Nat) :=
  if !m.rOpen then .error "not found file"
  else if b.Off < 0 then .error "invalid argument"
  else
    let content := m.fs.orig.getD []
    if b.Len = 0 then .ok []
    else if b.Off ≥ (content.length : Int) then .error "EOF"
    else
      let data := (content.drop b.Off.toNat).take b.Len
      if data.length ≠ b.Len then .error "read file data num error"
      else .ok data

/-- FileMerger.doIndex of the earlier variant: an explicit bounds check
on the instruction index before touching Blocks. -/
def FileMerger.doIndex (m : FileMerger) (hi : AnalyseInfo) : FileMerger × GoRes Unit :=
  if hi.Index < 0 ∨ hi.Index ≥ (m.Info.Blocks.length : Int) then
    (m, .error "block index out bound")
  else
    let b := m.Info.Blocks.getD hi.Index.toNat ⟨0, 0, 0, [], 0, 0⟩
    match m.readBlock b with
    | .error e => (m, .error e)
    | .panicked e => (m, .panicked e)
    | .ok data =>
      let m := { m with Hash := m.Hash ++ data }
      if m.wOpen then
        ({ m with fs := { m.fs with tmp := some (m.fs.tmp.getD [] ++ data) } }, .ok ())
      else (m, .error "invalid argument")

def FileMerger.attach (m : FileMerger) : FileMerger × GoRes Unit :=
  let step :=
    if m.rOpen then
      match m.fs.orig with
      | none => ({ m with rOpen := false }, GoRes.error "remove error")
      | some _ =>
        ({ m with rOpen := false, fs := { m.fs with orig := none } }, GoRes.ok ())
    else (m, GoRes.ok ())
  match step with
  | (m, .ok _) =>
    let m := { m with wOpen := false }
    match m.fs.tmp with
    | none => (m, .error "rename error")
    | some t => ({ m with fs := { orig := some t, tmp := none } }, .ok ())
  | other => other

/-- doClose of the earlier variant: hash check, attach, then Close
(which only nils the already-closed handles). -/
def FileMerger.doClose (m : FileMerger) (hi : AnalyseInfo) : FileMerger × GoRes Unit :=
  let mv := md5 m.Hash
  if !(mv == hi.Hash) then (m, .error "hash error")
  else
    match m.attach with
    | (m, .ok _) => ({ m with wOpen := false, rOpen := false }, .ok ())
    | other => other

def FileMerger.write (m : FileMerger) (hi : AnalyseInfo) : FileMerger × GoRes Unit :=
  let s1 := if hi.IsOpen then m.doOpen hi else (m, .ok ())
  match s1 with
  | (m, .ok _) =>
    let s2 := if hi.IsData then m.doData hi else (m, .ok ())
    match s2 with
    | (m, .ok _) =>
      let s3 := if hi.IsIndex then m.doIndex hi else (m, .ok ())
      match s3 with
      | (m, .ok _) =>
        if hi.IsClose then m.doClose hi else (m, .ok ())
      | other => other
    | other => other
  | other => other

/-- FileHashInfo of the earlier variant: Blocks is a plain slice. -/
structure FileHashInfo where
  Info : Option HashInfo
  File : Option (List Nat)
  Blocks : List HashBlock
  Count : Int
  MD5 : Option (List Nat)
  BlockSize : Nat
  FileSize : Int
deriving DecidableEq, Repr

def NewFileHashInfoB (bsize : Nat) : FileHashInfo :=
  { Info := none, File := none, Blocks := [], Count := 0, MD5 := none,
    BlockSize := bsize, FileSize := 0 }

/-- Open of the earlier variant (same control flow as V1's). -/
def FileHashInfo.openFile (this : FileHashInfo) (disk : Option (List Nat)) :
    Except String FileHashInfo :=
  if this.BlockSize = 0 then .error "block size error"
  else
    match disk with
    | none => .ok this
    | some content =>
      if content.length = 0 then .ok { this with FileSize := 0 }
      else
        let count : Int :=
          if content.length % this.BlockSize = 0 then content.length / this.BlockSize
          else content.length / this.BlockSize + 1
        .ok { this with
          FileSize := content.length
          Count := count
          File := some content }

/-- The loop of the earlier FillHashInfo: Count sequential reads of up
to BlockSize bytes, each one recorded as a HashBlock (no break, no
deduplication), all bytes fed to the running file md5. -/
def fillLoop (T : List Nat) (B : Nat) :
    Nat → Nat → Nat → List Nat → List HashBlock →
    Except String (List HashBlock × List Nat)
  | 0, _, _, facc, blocks => .ok (blocks, facc)
  | rem + 1, i, pos, facc, blocks =>
    let dat := (T.drop pos).take B
    if dat.isEmpty ∧ B ≠ 0 then .error "read file error"
    else
      let facc := facc ++ dat
      let acs := adler32 dat
      let hb : HashBlock :=
        { Idx := i
          H1 := acs &&& 65535
          H2 := (acs >>> 16) &&& 65535
          H3 := md5 dat
          Len := dat.length
          Off := pos }
      fillLoop T B rem (i + 1) (pos + dat.length) facc (blocks ++ [hb])

/-- FillHashInfo of the earlier variant. -/
def FileHashInfo.fillHashInfo (this : FileHashInfo) : Except String FileHashInfo :=
  if this.FileSize = 0 then .ok this
  else
    match this.File with
    | none => .error "file not open"
    | some T => do
      let (blocks, facc) ← fillLoop T this.BlockSize this.Count.toNat 0 0 [] this.Blocks
      .ok { this with Blocks := blocks, MD5 := some (md5 facc) }

def FileHashInfo.getHashInfo (this : FileHashInfo) : HashInfo :=
  { Blocks := this.Blocks, MD5 := this.MD5, BlockSize := this.BlockSize }

/-- Open + FillHashInfo + GetHashInfo over a present target file. -/
def sign (T : List Nat) (B : Nat) : Except String HashInfo := do
  let df ← (NewFileHashInfoB B).openFile (some T)
  let df ← df.fillHashInfo
  .ok df.getHashInfo

end P0

/-! ## Specification-side helpers used to state the theorems -/

/-- The B-sized chunks of a byte list, last chunk possibly short.
Fuel-based structural recursion (each step consumes at least one byte
when B is positive, so l.length is enough fuel). -/
def chunksAux (B : Nat) : Nat → List Nat → List (List Nat)
  | 0, _ => []
  | _ + 1, [] => []
  | fuel + 1, b :: l => ((b :: l).take B) :: chunksAux B fuel ((b :: l).drop B)

def chunksOf (B : Nat) (l : List Nat) : List (List Nat) :=
  chunksAux B l.length l

/-- The full B-sized chunks of T: block number i covers bytes
[i*B, i*B+B). -/
def fullChunks (B : Nat) (T : List Nat) : List (List Nat) :=
  (List.range (T.length / B)).map (fun i => (T.drop (i * B)).take B)

/-- First-occurrence deduplication of a chunk list by md5 hex, keeping
the chunk's original position: the pairs (position, chunk) whose digest
hex was not seen at an earlier kept position. -/
def dedupGo (i : Nat) (seen : List String) : List (List Nat) → List (Nat × List Nat)
  | [] => []
  | c :: rest =>
    if seen.contains (hexEncode (md5 c)) then dedupGo (i + 1) seen rest
    else (i, c) :: dedupGo (i + 1) (seen ++ [hexEncode (md5 c)]) rest

def dedupKept (chs : List (List Nat)) : List (Nat × List Nat) :=
  dedupGo 0 [] chs

/-- The V1 HashBlocks the signer records for a deduplicated chunk list,
numbering the kept blocks from j. -/
def keptToBlocks : Nat → List (Nat × List Nat) → List V1.HashBlock
  | _, [] => []
  | j, (k, c) :: rest =>
    { Idx := j, Off := k, H1 := adler32 c &&& 65535,
      H2 := (adler32 c >>> 16) &&& 65535, H3 := md5 c } :: keptToBlocks (j + 1) rest

/-- The V1 signer map entries for a deduplicated chunk list, keyed by
md5 hex, numbering the kept blocks from j. -/
def keptToMap : Nat → List (Nat × List Nat) → List (String × V1.HashBlock)
  | _, [] => []
  | j, (k, c) :: rest =>
    (hexEncode (md5 c),
      { Idx := j, Off := k, H1 := adler32 c &&& 65535,
        H2 := (adler32 c >>> 16) &&& 65535, H3 := md5 c }) :: keptToMap (j + 1) rest

/-- The P0 HashBlocks for a chunk list, numbering from i with byte
offsets from pos. -/
def p0BlocksFrom (i : Nat) (pos : Nat) : List (List Nat) → List P0.HashBlock
  | [] => []
  | c :: rest =>
    { Idx := (i : Int), H1 := adler32 c &&& 65535, H2 := (adler32 c >>> 16) &&& 65535,
      H3 := md5 c, Len := c.length, Off := (pos : Int) } ::
      p0BlocksFrom (i + 1) (pos + c.length) rest

/-- The V1 matcher state for a source file S and signature hi, as left
by NewFileHashInfo(src, hi) followed by Open (the source file exists
with contents S; a size-0 file is left unopened). -/
def sourceFH (S : List Nat) (hi : V1.HashInfo) : V1.FileHashInfo :=
  match (V1.NewFileHashInfoI hi).openFile (some S) with
  | .ok fh => fh
  | .error _ => V1.NewFileHashInfoI hi

/-- A signature with no blocks (what signing an absent or empty target
produces, up to the MD5 field). -/
def emptyInfo (B : Nat) : V1.HashInfo := { Blocks := [], MD5 := none, BlockSize := B }

/-- The instruction sink that feeds a FileMerger, as in the package
test: the Analyse callback returns mp.Write(info). -/
def sinkOfMerger : V1.Sink V1.FileMerger := fun m info =>
  match m.write info with
  | (m', .ok _) => (m', .ok)
  | (m', .error e) => (m', .err e)
  | (m', .panicked e) => (m', .panic e)

/-- The full V1 pipeline of the claims: sign the target T with block
size B, analyse the source S against that signature, and deliver every
instruction to a FileMerger over the target path.  Returns the trace,
the final merger and the Analyse result. -/
def pipeline (T S : List Nat) (B : Nat) :
    Except String (List V1.AnalyseInfo × V1.FileMerger × V1.ARes) := do
  let hi ← V1.GetFileHashInfo (some T) B
  let m0 := V1.NewFileMerger { orig := some T, tmp := none } hi
  let sf ← (V1.NewFileHashInfoI hi).openFile (some S)
  .ok (V1.analyse sf sinkOfMerger m0)

/-- The observable outcome of the pipeline: the contents of the file at
the target path afterwards, and the Analyse result. -/
def pipelineOut (T S : List Nat) (B : Nat) : Option (Option (List Nat) × V1.ARes) :=
  match pipeline T S B with
  | .ok (_, m, r) => some (m.fs.orig, r)
  | .error _ => none

/-- A sink that rejects every DATA instruction with a fixed error and
accepts everything else. -/
def dataFailSink : V1.Sink Unit := fun s i =>
  (s, if i.IsData then .err "sink fail" else .ok)

/-! ## Concrete inputs for the counterexamples and failing runs -/

/-- A non-empty two-block-size signature for the empty-source run. -/
def c3sig : V1.HashInfo :=
  { Blocks := [{ Idx := 0, Off := 0, H1 := 1, H2 := 1, H3 := List.replicate 16 0 }],
    MD5 := some (List.replicate 16 0), BlockSize := 2 }

/-- A merger over an empty signature, and an INDEX instruction whose
index 3 has no block. -/
def c8merger : V1.FileMerger :=
  V1.NewFileMerger { orig := some [1, 2, 3, 4], tmp := none } (emptyInfo 4)

def c8instr : V1.AnalyseInfo := { Index := 3, Off := 0, Data := [], type := 4, Hash := [] }

/-- A two-instruction merge ending in a CLOSE whose hash (the empty
slice) cannot match the running md5. -/
def c2run : V1.FileMerger × GoRes Unit :=
  V1.mergerRun (V1.NewFileMerger { orig := some [1, 2], tmp := none } (emptyInfo 2))
    [{ Index := 0, Off := 1, Data := [], type := 1, Hash := [] },
     { Index := 0, Off := 0, Data := [9], type := 10, Hash := [] }]

/-- The trace of analysing a five-byte source against an empty
signature with block size two. -/
def c4trace : List V1.AnalyseInfo :=
  (V1.analyse (sourceFH [1, 2, 3, 4, 5] (emptyInfo 2)) V1.okSink ()).1

/-- Signing a three-byte target with block size two (one full chunk and
a short final chunk). -/
def c6sig : Except String V1.HashInfo := V1.GetFileHashInfo (some [1, 2, 3]) 2

/-- A signature whose single block carries Idx 7, for the wire
round-trip. -/
def c9sig : V1.HashInfo :=
  { Blocks := [{ Idx := 7, Off := 2, H1 := 3, H2 := 4, H3 := List.replicate 16 5 }],
    MD5 := some (List.replicate 16 0), BlockSize := 4 }

/-- The blocks with Idx reassigned sequentially from i, as
HashInfo.Read leaves them. -/
def reindexBlocks : Nat → List V1.HashBlock → List V1.HashBlock
  | _, [] => []
  | i, b :: rest => { b with Idx := i } :: reindexBlocks (i + 1) rest

/-- A well-formed signature used to instantiate the round-trip theorem. -/
def c9sigW : V1.HashInfo :=
  { Blocks := [{ Idx := 0, Off := 1, H1 := 2, H2 := 3, H3 := List.replicate 16 7 },
      { Idx := 1, Off := 0, H1 := 9, H2 := 8, H3 := List.replicate 16 6 }],
    MD5 := some (List.replicate 16 1), BlockSize := 8 }

/-! ## Theorems -/

set_option maxRecDepth 4000000

/-- Claim C1 (code bug, failing input): for the target T = [1], the
empty source S = [] and block size 1, the pipeline does not produce an
output file equal to S: FileHashInfo.Open leaves the source file
unopened because its size is 0, Analyse returns the "file not open"
error before emitting anything, and the file at the target path still
holds T = [1], not S = []. -/
theorem c1_empty_source_pipeline_fails :
    pipelineOut [1] [] 1 = some (some [1], V1.ARes.fail "file not open") ∧
      some [1] ≠ some ([] : List Nat) := by decide

/-- Claim C3 (code bug, failing input): analysing the empty source
against a non-empty signature emits no instruction at all — in
particular no CLOSE carrying the md5 of S — and returns the "file not
open" error. -/
theorem c3_empty_source_no_close :
    V1.analyse (sourceFH [] c3sig) V1.okSink () =
      ([], (), V1.ARes.fail "file not open") := by decide

/-- Claim C5 (code bug): HashBlockEqual returns true for two blocks
that differ in H2 (1 versus 2) but agree on H1 and H3, because the
source compares b2.H2 with itself; the claim requires agreement on both
weak halves.  Both the V1 and the P0 variants have the typo. -/
theorem c5_hashblockequal_ignores_h2 :
    V1.HashBlockEqual { Idx := 0, Off := 0, H1 := 5, H2 := 1, H3 := List.replicate 16 0 }
        { Idx := 0, Off := 0, H1 := 5, H2 := 2, H3 := List.replicate 16 0 } = true ∧
      P0.HashBlockEqual { Idx := 0, H1 := 5, H2 := 1, H3 := List.replicate 16 0, Len := 2, Off := 0 }
        { Idx := 0, H1 := 5, H2 := 2, H3 := List.replicate 16 0, Len := 2, Off := 0 } = true ∧
      (1 : Nat) ≠ 2 := by decide

/-- Claim C7 (code bug, failing input): with an empty signature and the
one-byte source [7], a sink that rejects DATA instructions sees the
same DATA instruction twice — the empty-signature branch runs
fn(info) again after fn(info) returned an error and returns the second
result — so the instruction is not delivered exactly once. -/
theorem c7_sink_error_double_delivery :
    V1.analyse (sourceFH [7] (emptyInfo 1)) dataFailSink () =
      ([{ Index := 0, Off := 1, Data := [], type := 1, Hash := [] },
        { Index := 0, Off := 0, Data := [7], type := 2, Hash := [] },
        { Index := 0, Off := 0, Data := [7], type := 2, Hash := [] }], (),
        V1.ARes.fail "sink fail") := by decide

/-- Claim C8 (counterexample): the V1 FileMerger.Write on an INDEX
instruction whose index 3 is outside the empty block list panics
(unchecked slice access) instead of returning an error. -/
theorem c8_counterexample_v1_write_panics :
    (V1.FileMerger.write c8merger c8instr).2.isPanic = true ∧
      (V1.FileMerger.write c8merger c8instr).2.isError = false := by decide

/-- Claim C2 (counterexample): a merge of OPEN then DATA|CLOSE with a
mismatching CLOSE hash returns the hash error and leaves the original
target intact, but the temporary file is still present afterwards,
not absent as the claim states. -/
theorem c2_counterexample_tmp_remains :
    c2run.2 = GoRes.error "hash error" ∧
      c2run.1.fs.orig = some [1, 2] ∧
      c2run.1.fs.tmp = some [9] ∧
      c2run.1.fs.tmp ≠ none := by decide

/-- Claim C4 (counterexample): analysing S = [1,2,3,4,5] against an
empty signature with block size 2, the third emitted instruction is
DATA with payload [3,4] — the bytes at offset 2 of S — but its Off
field is 0, not 2. -/
theorem c4_counterexample_data_off_zero :
    c4trace.get? 2 = some { Index := 0, Off := 0, Data := [3, 4], type := 2, Hash := [] } ∧
      (([1, 2, 3, 4, 5] : List Nat).drop 2).take 2 = [3, 4] ∧
      (0 : Int) ≠ 2 := by decide

/-- Claim C6 (counterexample): signing T = [1,2,3] with block size 2 in
the V1 (map-based) FillHashInfo yields one block although T has two
chunks (the final chunk of length |T| mod B = 1 is dropped by the
short-read break), and the signature's MD5 field digests only the full
chunk [1,2], not all of T. -/
theorem c6_counterexample_v1_short_tail_dropped :
    c6sig.toOption.map (fun hi => hi.Blocks.length) = some 1 ∧
      (chunksOf 2 [1, 2, 3]).length = 2 ∧
      (1 : Nat) ≠ 2 ∧
      c6sig.toOption.map (fun hi => hi.MD5) = some (some (md5 [1, 2])) ∧
      md5 [1, 2] ≠ md5 [1, 2, 3] := by decide

/-- Claim C9 (counterexample): decoding the encoding of a signature
whose single block carries Idx 7 yields Idx 0 (Idx is not serialized
and is reassigned from the stream position), so the decoded signature
is not field-for-field equal to the original. -/
theorem c9_counterexample_idx_not_preserved :
    (V1.HashInfo.read V1.NewHashInfo c9sig.write).toOption.map
        (fun hi => hi.Blocks.map (fun b => b.Idx)) = some [0] ∧
      c9sig.Blocks.map (fun b => b.Idx) = [7] ∧
      (0 : Nat) ≠ 7 := by decide

/-! ### Bridge lemmas for the wire codec -/

theorem lor_shiftLeft_eq_add (a b k : Nat) (ha : a < 2 ^ k) :
    a ||| (b <<< k) = 2 ^ k * b + a := by
  apply Nat.eq_of_testBit_eq
  intro i
  rw [Nat.testBit_lor, Nat.testBit_shiftLeft, Nat.testBit_mul_pow_two_add _ ha]
  by_cases h : i < k
  · have : ¬ (i ≥ k) := by omega
    simp [h, this]
  · have hik : i ≥ k := by omega
    have hlt : a < 2 ^ i := lt_of_lt_of_le ha (Nat.pow_le_pow_right (by norm_num) hik)
    simp [h, hik, Nat.testBit_lt_two_pow hlt]

theorem and_255_eq (v : Nat) : v &&& 255 = v % 256 := by
  have := Nat.and_pow_two_sub_one_eq_mod v 8
  norm_num at this
  exact this

theorem touint16_tobyte16 (v : Nat) (hv : v < 65536) :
    V1.touint16 (V1.tobyte16 v) = v := by
  show (v &&& 255) ||| (((v >>> 8) &&& 255) <<< 8) = v
  rw [and_255_eq, and_255_eq, Nat.shiftRight_eq_div_pow]
  norm_num
  rw [lor_shiftLeft_eq_add _ _ 8 (by have := Nat.mod_lt v (y := 256) (by norm_num); norm_num; omega)]
  norm_num
  omega

theorem touint32_tobyte32 (v : Nat) (hv : v < 4294967296) :
    V1.touint32 (V1.tobyte32 v) = v := by
  show (v &&& 255) ||| (((v >>> 8) &&& 255) <<< 8) ||| (((v >>> 16) &&& 255) <<< 16)
      ||| (((v >>> 24) &&& 255) <<< 24) = v
  rw [and_255_eq, and_255_eq, and_255_eq, and_255_eq,
    Nat.shiftRight_eq_div_pow, Nat.shiftRight_eq_div_pow, Nat.shiftRight_eq_div_pow]
  norm_num
  rw [lor_shiftLeft_eq_add _ _ 8 (by have := Nat.mod_lt v (y := 256) (by norm_num); norm_num; omega)]
  rw [lor_shiftLeft_eq_add _ _ 16 (by norm_num; omega)]
  rw [lor_shiftLeft_eq_add _ _ 24 (by norm_num; omega)]
  norm_num
  omega

theorem tobyte16_length (v : Nat) : (V1.tobyte16 v).length = 2 := rfl

theorem tobyte32_length (v : Nat) : (V1.tobyte32 v).length = 4 := rfl

theorem sliceFill_full (dst src : List Nat) (h : dst.length ≤ src.length) :
    sliceFill dst src = src := by
  unfold sliceFill
  rw [List.drop_eq_nil_of_le h, List.append_nil]

theorem bufferRead_exact (pre rest : List Nat) (n : Nat) (hn : pre.length = n)
    (hne : n ≠ 0) :
    bufferRead (pre ++ rest) n = .ok (pre, rest) := by
  unfold bufferRead
  have hpre : pre ≠ [] := by
    intro h
    rw [h] at hn
    simp at hn
    omega
  rw [if_neg, List.take_left' hn, List.drop_left' hn]
  simp [List.isEmpty_iff, hpre]

theorem hashBlock_read_spec (b : V1.HashBlock) (rest : List Nat) (idx : Nat)
    (h1 : b.H1 < 65536) (h2 : b.H2 < 65536) (ho : b.Off < 4294967296)
    (h3 : b.H3.length = 16) :
    V1.HashBlock.read idx (b.write ++ rest) = .ok ({ b with Idx := idx }, rest) := by
  unfold V1.HashBlock.read V1.HashBlock.write
  rw [List.append_assoc, List.append_assoc, List.append_assoc]
  rw [bufferRead_exact _ _ 2 (tobyte16_length _) (by norm_num)]
  simp only [Except.bind, Bind.bind]
  rw [sliceFill_full _ _ (by simp [tobyte16_length])]
  rw [bufferRead_exact _ _ 2 (tobyte16_length _) (by norm_num)]
  simp only [Except.bind, Bind.bind]
  rw [sliceFill_full _ _ (by simp [tobyte16_length])]
  rw [bufferRead_exact _ _ 4 (tobyte32_length _) (by norm_num)]
  simp only [Except.bind, Bind.bind]
  rw [sliceFill_full _ _ (by simp [tobyte16_length, tobyte32_length])]
  rw [bufferRead_exact _ _ 16 h3 (by norm_num)]
  simp only [Except.bind, Bind.bind]
  rw [sliceFill_full _ _ (by simp [h3])]
  rw [touint16_tobyte16 _ h1, touint16_tobyte16 _ h2, touint32_tobyte32 _ ho]

theorem hashBlock_write_ne_nil (b : V1.HashBlock) : b.write ≠ [] := by
  unfold V1.HashBlock.write V1.tobyte16
  simp

theorem reindexBlocks_length (idx : Nat) (l : List V1.HashBlock) :
    (reindexBlocks idx l).length = l.length := by
  induction l generalizing idx with
  | nil => rfl
  | cons b rest ih => simp [reindexBlocks, ih]

theorem readBlocksLoop_spec (blocks : List V1.HashBlock) :
    ∀ (fuel idx : Nat) (acc : List V1.HashBlock),
      (∀ b ∈ blocks, b.H1 < 65536 ∧ b.H2 < 65536 ∧ b.Off < 4294967296 ∧
        b.H3.length = 16) →
      blocks.length < fuel →
      V1.readBlocksLoop fuel idx (blocks.map V1.HashBlock.write).flatten acc =
        .ok (acc ++ reindexBlocks idx blocks) := by
  induction blocks with
  | nil =>
    intro fuel idx acc _ hfuel
    match fuel, hfuel with
    | fuel + 1, _ =>
      simp [V1.readBlocksLoop, reindexBlocks]
  | cons b rest ih =>
    intro fuel idx acc hwf hfuel
    match fuel, hfuel with
    | fuel + 1, hfuel =>
      have hb := hwf b (by simp)
      have hne : (b.write ++ (rest.map V1.HashBlock.write).flatten).isEmpty = false := by
        rcases hb3 : b.write with _ | ⟨x, xs⟩
        · exact absurd hb3 (hashBlock_write_ne_nil b)
        · simp
      simp only [V1.readBlocksLoop, List.map_cons, List.flatten_cons, hne,
        Bool.false_eq_true, if_false]
      rw [hashBlock_read_spec b _ idx hb.1 hb.2.1 hb.2.2.1 hb.2.2.2]
      simp only [Except.bind, Bind.bind]
      have hres := ih fuel (idx + 1) (acc ++ [V1.HashBlock.mk idx b.Off b.H1 b.H2 b.H3])
        (fun x hx => hwf x (by simp [hx])) (by simpa using hfuel)
      rw [hres]
      simp [reindexBlocks]

theorem length_le_flatten_writes (blocks : List V1.HashBlock) :
    blocks.length ≤ (blocks.map V1.HashBlock.write).flatten.length := by
  induction blocks with
  | nil => simp
  | cons b rest ih =>
    simp only [List.map_cons, List.flatten_cons, List.length_append, List.length_cons]
    have hw : b.write.length = 8 + b.H3.length := by
      unfold V1.HashBlock.write
      simp [V1.tobyte16, V1.tobyte32]
      omega
    omega

theorem reindexBlocks_getD (l : List V1.HashBlock) :
    ∀ (j i : Nat), i < l.length →
      (reindexBlocks j l).getD i ⟨0, 0, 0, 0, []⟩ =
        { l.getD i ⟨0, 0, 0, 0, []⟩ with Idx := j + i } := by
  induction l with
  | nil => intro j i h; simp at h
  | cons b rest ih =>
    intro j i h
    match i with
    | 0 => simp [reindexBlocks]
    | i + 1 =>
      simp only [reindexBlocks, List.getD_cons_succ]
      rw [ih (j + 1) i (by simpa using h)]
      have : j + 1 + i = j + (i + 1) := by omega
      rw [this]

theorem zip_reindex_all (l : List V1.HashBlock) :
    ∀ (j : Nat), (List.zip l (reindexBlocks j l)).all
      (fun p => V1.HashBlockEqual p.1 p.2) = true := by
  induction l with
  | nil => intro j; rfl
  | cons b rest ih =>
    intro j
    simp only [reindexBlocks, List.zip_cons_cons, List.all_cons, ih (j + 1),
      Bool.and_true]
    unfold V1.HashBlockEqual
    simp

/-- Claim C9 (amended, theorem): decoding the encoding of any signature
with a non-nil 16-byte MD5 (and fields within their Go types' ranges)
restores the MD5, the block size and every block field except Idx,
which is reassigned sequentially from 0; consequently the source's own
HashInfoEqual accepts the pair. -/
theorem c9_roundtrip_all_but_idx (sig : V1.HashInfo) (m : List Nat)
    (hm : sig.MD5 = some m) (hmlen : m.length = 16) (hbs : sig.BlockSize < 65536)
    (hb : ∀ b ∈ sig.Blocks, b.H1 < 65536 ∧ b.H2 < 65536 ∧ b.Off < 4294967296 ∧
      b.H3.length = 16) :
    V1.HashInfo.read V1.NewHashInfo sig.write =
      .ok (V1.HashInfo.mk (reindexBlocks 0 sig.Blocks) (some m) sig.BlockSize) ∧
    (∀ i, i < sig.Blocks.length →
      (reindexBlocks 0 sig.Blocks).getD i ⟨0, 0, 0, 0, []⟩ =
        { sig.Blocks.getD i ⟨0, 0, 0, 0, []⟩ with Idx := i }) ∧
    V1.HashInfoEqual sig
      (V1.HashInfo.mk (reindexBlocks 0 sig.Blocks) (some m) sig.BlockSize) = true := by
  refine ⟨?_, ?_, ?_⟩
  · unfold V1.HashInfo.read
    have hw : sig.write =
        m ++ ([sig.BlockSize &&& 255, (sig.BlockSize >>> 8) &&& 255] ++
          (sig.Blocks.map V1.HashBlock.write).flatten) := by
      unfold V1.HashInfo.write
      rw [hm]
      exact List.append_assoc _ _ _
    rw [hw]
    have hmne : m ≠ [] := by
      intro h; rw [h] at hmlen; simp at hmlen
    have hne : (m ++ ([sig.BlockSize &&& 255, (sig.BlockSize >>> 8) &&& 255] ++
        (sig.Blocks.map V1.HashBlock.write).flatten)).isEmpty = false := by
      rcases m with _ | ⟨x, xs⟩
      · exact absurd rfl hmne
      · simp
    simp only [hne, Bool.false_eq_true, if_false]
    rw [bufferRead_exact _ _ 16 hmlen (by norm_num)]
    simp only [Except.bind, Bind.bind, V1.NewHashInfo]
    rw [bufferRead_exact [sig.BlockSize &&& 255, sig.BlockSize >>> 8 &&& 255] _ 2
      rfl (by norm_num)]
    simp only [Except.bind, Bind.bind]
    rw [sliceFill_full _ _ (by simp [hmlen])]
    rw [sliceFill_full _ _ (by simp)]
    have hbs2 : V1.touint16 [sig.BlockSize &&& 255, (sig.BlockSize >>> 8) &&& 255] =
        sig.BlockSize := touint16_tobyte16 sig.BlockSize hbs
    rw [hbs2]
    rw [readBlocksLoop_spec sig.Blocks _ 0 [] hb
      (by have := length_le_flatten_writes sig.Blocks; omega)]
    rfl
  · intro i hi
    rw [reindexBlocks_getD sig.Blocks 0 i hi]
    simp
  · unfold V1.HashInfoEqual
    rw [hm]
    simp only [Option.isNone_some, Bool.and_self, Bool.false_and]
    rw [if_neg (by simp)]
    rw [if_neg (by simp [V1.optBytes])]
    rw [if_neg (by simp)]
    rw [if_neg (by simp [reindexBlocks_length])]
    exact zip_reindex_all sig.Blocks 0

/-- Claim C9 (witness): the round-trip theorem applied to a concrete
two-block signature. -/
theorem c9_roundtrip_all_but_idx_witness :
    c9sigW.MD5 = some (List.replicate 16 1) ∧
    (List.replicate 16 1 : List Nat).length = 16 ∧
    c9sigW.BlockSize < 65536 ∧
    (∀ b ∈ c9sigW.Blocks, b.H1 < 65536 ∧ b.H2 < 65536 ∧ b.Off < 4294967296 ∧
      b.H3.length = 16) ∧
    (V1.HashInfo.read V1.NewHashInfo c9sigW.write =
      .ok (V1.HashInfo.mk (reindexBlocks 0 c9sigW.Blocks) (some (List.replicate 16 1))
        c9sigW.BlockSize) ∧
    (∀ i, i < c9sigW.Blocks.length →
      (reindexBlocks 0 c9sigW.Blocks).getD i ⟨0, 0, 0, 0, []⟩ =
        { c9sigW.Blocks.getD i ⟨0, 0, 0, 0, []⟩ with Idx := i }) ∧
    V1.HashInfoEqual c9sigW
      (V1.HashInfo.mk (reindexBlocks 0 c9sigW.Blocks) (some (List.replicate 16 1))
        c9sigW.BlockSize) = true) :=
  ⟨by decide, by decide, by decide, by decide,
    c9_roundtrip_all_but_idx c9sigW (List.replicate 16 1) (by decide) (by decide)
      (by decide) (by decide)⟩

theorem p0_doData_info (m : P0.FileMerger) (hi : P0.AnalyseInfo) :
    ((m.doData hi).1).Info = m.Info := by
  unfold P0.FileMerger.doData
  by_cases h : m.wOpen = true <;> simp [h]

theorem p0_doData_shape (m : P0.FileMerger) (hi : P0.AnalyseInfo) :
    (m.doData hi).2 = .ok () ∨ ∃ e, (m.doData hi).2 = .error e := by
  unfold P0.FileMerger.doData
  by_cases h : m.wOpen = true
  · left
    simp [h]
  · right
    exact ⟨"invalid argument", by simp [h]⟩

theorem p0_doIndex_oob (m : P0.FileMerger) (hi : P0.AnalyseInfo)
    (h : hi.Index < 0 ∨ hi.Index ≥ (m.Info.Blocks.length : Int)) :
    m.doIndex hi = (m, .error "block index out bound") := by
  unfold P0.FileMerger.doIndex
  rw [if_pos h]

/-- Claim C8 (amended, theorem): in the P0 variant, Write on any
instruction whose INDEX bit is set and whose Index is not a valid
position into the signature's block list returns an error (the
"block index out bound" abort, or an earlier phase's error) and never
reaches the unchecked slice access. -/
theorem c8_p0_write_oob_errors (m : P0.FileMerger) (hi : P0.AnalyseInfo)
    (hIdx : hi.IsIndex = true)
    (hOob : hi.Index < 0 ∨ hi.Index ≥ (m.Info.Blocks.length : Int)) :
    (P0.FileMerger.write m hi).2.isError = true := by
  unfold P0.FileMerger.write
  have hs1 : (if hi.IsOpen = true then m.doOpen hi else (m, GoRes.ok ())) =
      ((if hi.IsOpen = true then (m.doOpen hi).1 else m), GoRes.ok ()) := by
    by_cases h : hi.IsOpen = true
    · rw [if_pos h, if_pos h]
      rfl
    · rw [if_neg h, if_neg h]
  rw [hs1]
  set m1 := if hi.IsOpen = true then (m.doOpen hi).1 else m with hm1
  have hInfo1 : m1.Info = m.Info := by
    rw [hm1]
    by_cases h : hi.IsOpen = true
    · rw [if_pos h]
      rfl
    · rw [if_neg h]
  dsimp only
  by_cases hD : hi.IsData = true
  · rw [if_pos hD]
    rcases hdd : m1.doData hi with ⟨m2, r⟩
    have hInfo2 : m2.Info = m.Info := by
      have := p0_doData_info m1 hi
      rw [hdd] at this
      rw [← hInfo1]
      exact this
    have hshape := p0_doData_shape m1 hi
    rw [hdd] at hshape
    cases r with
    | ok u =>
      dsimp only
      rw [if_pos hIdx]
      rw [p0_doIndex_oob m2 hi (by rw [hInfo2]; exact hOob)]
      rfl
    | error e =>
      rfl
    | panicked e =>
      rcases hshape with h | ⟨e', h⟩ <;> simp at h
  · rw [if_neg hD]
    dsimp only
    rw [if_pos hIdx]
    rw [p0_doIndex_oob m1 hi (by rw [hInfo1]; exact hOob)]
    rfl

/-- Claim C8 (witness): the P0 theorem applied to a merger with an
empty signature and INDEX instruction index 5. -/
theorem c8_p0_write_oob_errors_witness :
    (P0.AnalyseInfo.IsIndex { Index := 5, Off := 0, Data := [], type := 4, Hash := [] }) = true ∧
    ((5 : Int) < 0 ∨ (5 : Int) ≥
      (((P0.NewFileMerger { orig := some [1, 2], tmp := none }
        { Blocks := [], MD5 := none, BlockSize := 2 }).Info.Blocks.length : Int))) ∧
    (P0.FileMerger.write
      (P0.NewFileMerger { orig := some [1, 2], tmp := none }
        { Blocks := [], MD5 := none, BlockSize := 2 })
      { Index := 5, Off := 0, Data := [], type := 4, Hash := [] }).2.isError = true :=
  ⟨by decide, by decide,
    c8_p0_write_oob_errors _ _ (by decide) (by decide)⟩

theorem v1_doOpen_inv (m : V1.FileMerger) (hi : V1.AnalyseInfo) :
    ((m.doOpen hi).1).fs.orig = m.fs.orig ∧
    ((m.doOpen hi).1).fs.tmp.isSome = true ∧
    ((m.doOpen hi).1).wOpen = true ∧
    ((m.doOpen hi).1).Hash = m.Hash ∧
    (m.doOpen hi).2 = .ok () :=
  ⟨rfl, rfl, rfl, rfl, rfl⟩

theorem v1_doData_inv (m : V1.FileMerger) (hi : V1.AnalyseInfo) :
    ((m.doData hi).1).fs.orig = m.fs.orig ∧
    (m.fs.tmp.isSome = true → ((m.doData hi).1).fs.tmp.isSome = true) ∧
    ((m.doData hi).1).wOpen = m.wOpen := by
  unfold V1.FileMerger.doData
  by_cases h : m.wOpen = true <;> simp [h]

theorem v1_doIndex_inv (m : V1.FileMerger) (hi : V1.AnalyseInfo) :
    ((m.doIndex hi).1).fs.orig = m.fs.orig ∧
    (m.fs.tmp.isSome = true → ((m.doIndex hi).1).fs.tmp.isSome = true) ∧
    ((m.doIndex hi).1).wOpen = m.wOpen := by
  unfold V1.FileMerger.doIndex
  by_cases h : hi.Index < m.Info.Blocks.length
  · rw [dif_pos h]
    dsimp only
    rcases hrb : m.readBlock (m.Info.Blocks.get ⟨hi.Index, h⟩) with d | e | e
    · by_cases hw : m.wOpen = true <;> simp [hw]
    · exact ⟨rfl, fun h => h, rfl⟩
    · exact ⟨rfl, fun h => h, rfl⟩
  · rw [dif_neg h]
    exact ⟨rfl, fun h => h, rfl⟩

/-- Invariants of a single Write without the CLOSE bit: the target file
is untouched, a present temp file stays present (and OPEN creates one),
and an open write handle stays open (and OPEN opens one). -/
theorem v1_write_notClose_inv (m : V1.FileMerger) (hi : V1.AnalyseInfo)
    (hC : hi.IsClose = false) :
    ((m.write hi).1).fs.orig = m.fs.orig ∧
    ((m.fs.tmp.isSome = true ∨ hi.IsOpen = true) →
      ((m.write hi).1).fs.tmp.isSome = true) ∧
    ((m.wOpen = true ∨ hi.IsOpen = true) → ((m.write hi).1).wOpen = true) := by
  unfold V1.FileMerger.write
  have hs1 : (if hi.IsOpen = true then m.doOpen hi else (m, GoRes.ok ())) =
      ((if hi.IsOpen = true then (m.doOpen hi).1 else m), GoRes.ok ()) := by
    by_cases h : hi.IsOpen = true
    · rw [if_pos h, if_pos h]
      rfl
    · rw [if_neg h, if_neg h]
  rw [hs1]
  set m1 := if hi.IsOpen = true then (m.doOpen hi).1 else m with hm1
  have h1orig : m1.fs.orig = m.fs.orig := by
    rw [hm1]
    by_cases h : hi.IsOpen = true
    · rw [if_pos h]
      exact (v1_doOpen_inv m hi).1
    · rw [if_neg h]
  have h1tmp : (m.fs.tmp.isSome = true ∨ hi.IsOpen = true) → m1.fs.tmp.isSome = true ∨
      (hi.IsOpen = false ∧ m1.fs.tmp.isSome = m.fs.tmp.isSome) := by
    intro hor
    rw [hm1]
    by_cases h : hi.IsOpen = true
    · rw [if_pos h]
      exact Or.inl (v1_doOpen_inv m hi).2.1
    · rw [if_neg h]
      rcases hor with ht | ho
      · exact Or.inl ht
      · exact absurd ho h
  have h1w : (m.wOpen = true ∨ hi.IsOpen = true) → m1.wOpen = true := by
    intro hor
    rw [hm1]
    by_cases h : hi.IsOpen = true
    · rw [if_pos h]
      exact (v1_doOpen_inv m hi).2.2.1
    · rw [if_neg h]
      rcases hor with ht | ho
      · exact ht
      · exact absurd ho h
  have h1tmp' : (m.fs.tmp.isSome = true ∨ hi.IsOpen = true) → m1.fs.tmp.isSome = true := by
    intro hor
    rcases h1tmp hor with h | ⟨hno, heq⟩
    · exact h
    · rw [heq]
      rcases hor with ht | ho
      · exact ht
      · rw [ho] at hno
        cases hno
  clear h1tmp
  dsimp only
  by_cases hD : hi.IsData = true
  · rw [if_pos hD]
    rcases hdd : m1.doData hi with ⟨m2, r⟩
    have hinv2 := v1_doData_inv m1 hi
    rw [hdd] at hinv2
    cases r with
    | ok u =>
      dsimp only
      by_cases hI : hi.IsIndex = true
      · rw [if_pos hI]
        rcases hdi : m2.doIndex hi with ⟨m3, r3⟩
        have hinv3 := v1_doIndex_inv m2 hi
        rw [hdi] at hinv3
        cases r3 with
        | ok u =>
          dsimp only
          rw [hC]
          simp only [Bool.false_eq_true, if_false]
          refine ⟨by rw [hinv3.1, hinv2.1, h1orig], ?_, ?_⟩
          · intro hor
            exact hinv3.2.1 (hinv2.2.1 (h1tmp' hor))
          · intro hor
            rw [hinv3.2.2, hinv2.2.2]
            exact h1w hor
        | error e =>
          refine ⟨by rw [hinv3.1, hinv2.1, h1orig], ?_, ?_⟩
          · intro hor
            exact hinv3.2.1 (hinv2.2.1 (h1tmp' hor))
          · intro hor
            rw [hinv3.2.2, hinv2.2.2]
            exact h1w hor
        | panicked e =>
          refine ⟨by rw [hinv3.1, hinv2.1, h1orig], ?_, ?_⟩
          · intro hor
            exact hinv3.2.1 (hinv2.2.1 (h1tmp' hor))
          · intro hor
            rw [hinv3.2.2, hinv2.2.2]
            exact h1w hor
      · rw [if_neg hI]
        dsimp only
        rw [hC]
        simp only [Bool.false_eq_true, if_false]
        refine ⟨by rw [hinv2.1, h1orig], ?_, ?_⟩
        · intro hor
          exact hinv2.2.1 (h1tmp' hor)
        · intro hor
          rw [hinv2.2.2]
          exact h1w hor
    | error e =>
      refine ⟨by rw [hinv2.1, h1orig], ?_, ?_⟩
      · intro hor
        exact hinv2.2.1 (h1tmp' hor)
      · intro hor
        rw [hinv2.2.2]
        exact h1w hor
    | panicked e =>
      refine ⟨by rw [hinv2.1, h1orig], ?_, ?_⟩
      · intro hor
        exact hinv2.2.1 (h1tmp' hor)
      · intro hor
        rw [hinv2.2.2]
        exact h1w hor
  · rw [if_neg hD]
    dsimp only
    by_cases hI : hi.IsIndex = true
    · rw [if_pos hI]
      rcases hdi : m1.doIndex hi with ⟨m3, r3⟩
      have hinv3 := v1_doIndex_inv m1 hi
      rw [hdi] at hinv3
      cases r3 with
      | ok u =>
        dsimp only
        rw [hC]
        simp only [Bool.false_eq_true, if_false]
        refine ⟨by rw [hinv3.1, h1orig], ?_, ?_⟩
        · intro hor
          exact hinv3.2.1 (h1tmp' hor)
        · intro hor
          rw [hinv3.2.2]
          exact h1w hor
      | error e =>
        refine ⟨by rw [hinv3.1, h1orig], ?_, ?_⟩
        · intro hor
          exact hinv3.2.1 (h1tmp' hor)
        · intro hor
          rw [hinv3.2.2]
          exact h1w hor
      | panicked e =>
        refine ⟨by rw [hinv3.1, h1orig], ?_, ?_⟩
        · intro hor
          exact hinv3.2.1 (h1tmp' hor)
        · intro hor
          rw [hinv3.2.2]
          exact h1w hor
    · rw [if_neg hI]
      dsimp only
      rw [hC]
      simp only [Bool.false_eq_true, if_false]
      exact ⟨h1orig, h1tmp', h1w⟩

/-- Invariants of a whole run of CLOSE-free instructions. -/
theorem v1_run_notClose_inv (l : List V1.AnalyseInfo) :
    ∀ (m : V1.FileMerger), (∀ i ∈ l, i.IsClose = false) →
      ((V1.mergerRun m l).1).fs.orig = m.fs.orig ∧
      (m.fs.tmp.isSome = true → ((V1.mergerRun m l).1).fs.tmp.isSome = true) ∧
      (m.wOpen = true → ((V1.mergerRun m l).1).wOpen = true) := by
  induction l with
  | nil => exact fun m _ => ⟨rfl, fun h => h, fun h => h⟩
  | cons hi rest ih =>
    intro m hl
    have hC : hi.IsClose = false := hl hi (by simp)
    have hw := v1_write_notClose_inv m hi hC
    unfold V1.mergerRun
    rcases hwr : m.write hi with ⟨m', r⟩
    rw [hwr] at hw
    cases r with
    | ok u =>
      have hrest := ih m' (fun i hi2 => hl i (by simp [hi2]))
      refine ⟨by rw [hrest.1, hw.1], ?_, ?_⟩
      · intro ht
        exact hrest.2.1 (hw.2.1 (Or.inl ht))
      · intro ht
        exact hrest.2.2 (hw.2.2 (Or.inl ht))
    | error e =>
      exact ⟨hw.1, fun ht => hw.2.1 (Or.inl ht), fun ht => hw.2.2 (Or.inl ht)⟩
    | panicked e =>
      exact ⟨hw.1, fun ht => hw.2.1 (Or.inl ht), fun ht => hw.2.2 (Or.inl ht)⟩

theorem v1_mergerRun_cons (m : V1.FileMerger) (hi : V1.AnalyseInfo)
    (rest : List V1.AnalyseInfo) :
    V1.mergerRun m (hi :: rest) =
      match m.write hi with
      | (m', .ok _) => V1.mergerRun m' rest
      | other => other := rfl

theorem v1_mergerRun_append (l : List V1.AnalyseInfo) (c : V1.AnalyseInfo) :
    ∀ (m : V1.FileMerger),
      V1.mergerRun m (l ++ [c]) =
        match V1.mergerRun m l with
        | (m1, .ok _) => m1.write c
        | other => other := by
  induction l with
  | nil =>
    intro m
    show V1.mergerRun m [c] = m.write c
    rw [v1_mergerRun_cons]
    rcases hwr : m.write c with ⟨m', r⟩
    cases r <;> rfl
  | cons hi rest ih =>
    intro m
    show V1.mergerRun m (hi :: (rest ++ [c])) = _
    rw [v1_mergerRun_cons, v1_mergerRun_cons]
    rcases hwr : m.write hi with ⟨m', r⟩
    cases r with
    | ok u => exact ih m'
    | error e => rfl
    | panicked e => rfl

theorem v1_doData_ok (m : V1.FileMerger) (hi : V1.AnalyseInfo) (hw : m.wOpen = true) :
    m.doData hi = (V1.FileMerger.mk m.wOpen m.rOpen m.Size (m.Hash ++ hi.Data) m.Info
      (V1.Fs.mk m.fs.orig (some (m.fs.tmp.getD [] ++ hi.Data))), .ok ()) := by
  unfold V1.FileMerger.doData
  simp [hw]

theorem v1_doClose_mismatch (m : V1.FileMerger) (hi : V1.AnalyseInfo)
    (hne : md5 m.Hash ≠ hi.Hash) :
    m.doClose hi = (m, .error "hash error") := by
  unfold V1.FileMerger.doClose
  rw [if_pos (by simp [beq_eq_false_iff_ne.mpr hne])]

/-- Claim C2 (amended, theorem): when a merge consists of an OPEN
instruction, CLOSE-free middle instructions that all succeed, and a
final CLOSE (possibly carrying DATA, not INDEX) whose hash does not
match the running md5, the merge returns the "hash error", the
original file at the target path is byte-identical to its pre-call
state, and the temporary file is still present (not absent). -/
theorem c2_close_mismatch_error_keeps_tmp (fs0 : V1.Fs) (sig : V1.HashInfo)
    (opn cls : V1.AnalyseInfo) (mids : List V1.AnalyseInfo) (m1 : V1.FileMerger)
    (hO : opn.IsOpen = true) (hOc : opn.IsClose = false)
    (hM : ∀ i ∈ mids, i.IsClose = false)
    (hC : cls.IsClose = true) (hCo : cls.IsOpen = false) (hCi : cls.IsIndex = false)
    (hPre : V1.mergerRun (V1.NewFileMerger fs0 sig) (opn :: mids) = (m1, .ok ()))
    (hMis : md5 (m1.Hash ++ (if cls.IsData = true then cls.Data else [])) ≠ cls.Hash) :
    (V1.mergerRun (V1.NewFileMerger fs0 sig) ((opn :: mids) ++ [cls])).2 =
      GoRes.error "hash error" ∧
    ((V1.mergerRun (V1.NewFileMerger fs0 sig) ((opn :: mids) ++ [cls])).1).fs.orig =
      fs0.orig ∧
    ((V1.mergerRun (V1.NewFileMerger fs0 sig) ((opn :: mids) ++ [cls])).1).fs.tmp ≠
      none := by
  have happ : V1.mergerRun (V1.NewFileMerger fs0 sig) ((opn :: mids) ++ [cls]) =
      m1.write cls := by
    rw [v1_mergerRun_append, hPre]
  -- facts about the state after the CLOSE-free prefix
  rw [v1_mergerRun_cons] at hPre
  rcases hw0 : (V1.NewFileMerger fs0 sig).write opn with ⟨ma, r0⟩
  rw [hw0] at hPre
  have hinv0 := v1_write_notClose_inv (V1.NewFileMerger fs0 sig) opn hOc
  rw [hw0] at hinv0
  cases r0 with
  | error e => exact absurd hPre (by simp)
  | panicked e => exact absurd hPre (by simp)
  | ok u =>
    dsimp only at hPre hinv0
    have hinvR := v1_run_notClose_inv mids ma hM
    rw [hPre] at hinvR
    have h1orig : m1.fs.orig = fs0.orig := by
      have := hinvR.1
      dsimp only at this
      rw [this, hinv0.1]
      rfl
    have h1tmp : m1.fs.tmp.isSome = true := by
      have := hinvR.2.1 (hinv0.2.1 (Or.inr hO))
      dsimp only at this
      exact this
    have h1w : m1.wOpen = true := by
      have := hinvR.2.2 (hinv0.2.2 (Or.inr hO))
      dsimp only at this
      exact this
    -- the final Write
    have hwc : m1.write cls =
        ((if cls.IsData = true then
            V1.FileMerger.mk m1.wOpen m1.rOpen m1.Size (m1.Hash ++ cls.Data) m1.Info
              (V1.Fs.mk m1.fs.orig (some (m1.fs.tmp.getD [] ++ cls.Data)))
          else m1), GoRes.error "hash error") := by
      unfold V1.FileMerger.write
      rw [if_neg (by rw [hCo]; simp)]
      dsimp only
      by_cases hD : cls.IsData = true
      · rw [if_pos hD, v1_doData_ok m1 cls h1w]
        dsimp only
        rw [if_neg (by rw [hCi]; simp)]
        dsimp only
        rw [if_pos hC]
        rw [v1_doClose_mismatch _ cls (by rw [if_pos hD] at hMis; exact hMis)]
        rw [if_pos hD]
      · rw [if_neg hD]
        dsimp only
        rw [if_neg (by rw [hCi]; simp)]
        dsimp only
        rw [if_pos hC]
        rw [v1_doClose_mismatch _ cls
          (by rw [if_neg hD, List.append_nil] at hMis; exact hMis)]
        rw [if_neg hD]
    rw [happ, hwc]
    by_cases hD : cls.IsData = true
    · rw [if_pos hD]
      exact ⟨rfl, h1orig, by simp⟩
    · rw [if_neg hD]
      refine ⟨rfl, h1orig, ?_⟩
      intro hnone
      rw [hnone] at h1tmp
      cases h1tmp

/-- Claim C2 (witness): the mismatch theorem applied to the concrete
merge of OPEN then CLOSE with hash [1] over a one-byte target. -/
theorem c2_close_mismatch_error_keeps_tmp_witness :
    V1.AnalyseInfo.IsOpen { Index := 0, Off := 0, Data := [], type := 1, Hash := [] } = true ∧
    V1.AnalyseInfo.IsClose { Index := 0, Off := 0, Data := [], type := 1, Hash := [] } = false ∧
    (∀ i ∈ ([] : List V1.AnalyseInfo), i.IsClose = false) ∧
    V1.AnalyseInfo.IsClose { Index := 0, Off := 0, Data := [], type := 8, Hash := [1] } = true ∧
    V1.AnalyseInfo.IsOpen { Index := 0, Off := 0, Data := [], type := 8, Hash := [1] } = false ∧
    V1.AnalyseInfo.IsIndex { Index := 0, Off := 0, Data := [], type := 8, Hash := [1] } = false ∧
    V1.mergerRun (V1.NewFileMerger (V1.Fs.mk (some [3]) none) (emptyInfo 1))
      [{ Index := 0, Off := 0, Data := [], type := 1, Hash := [] }] =
      (V1.FileMerger.mk true true 0 [] (emptyInfo 1) (V1.Fs.mk (some [3]) (some [])),
        .ok ()) ∧
    md5 ((V1.FileMerger.mk true true 0 [] (emptyInfo 1)
        (V1.Fs.mk (some [3]) (some []))).Hash ++
      (if V1.AnalyseInfo.IsData { Index := 0, Off := 0, Data := [], type := 8, Hash := [1] } = true
        then ({ Index := 0, Off := 0, Data := [], type := 8, Hash := [1] } : V1.AnalyseInfo).Data
        else [])) ≠
      ({ Index := 0, Off := 0, Data := [], type := 8, Hash := [1] } : V1.AnalyseInfo).Hash ∧
    ((V1.mergerRun (V1.NewFileMerger (V1.Fs.mk (some [3]) none) (emptyInfo 1))
        (({ Index := 0, Off := 0, Data := [], type := 1, Hash := [] } :: []) ++
          [{ Index := 0, Off := 0, Data := [], type := 8, Hash := [1] }])).2 =
      GoRes.error "hash error" ∧
    ((V1.mergerRun (V1.NewFileMerger (V1.Fs.mk (some [3]) none) (emptyInfo 1))
        (({ Index := 0, Off := 0, Data := [], type := 1, Hash := [] } :: []) ++
          [{ Index := 0, Off := 0, Data := [], type := 8, Hash := [1] }])).1).fs.orig =
      (V1.Fs.mk (some [3]) none).orig ∧
    ((V1.mergerRun (V1.NewFileMerger (V1.Fs.mk (some [3]) none) (emptyInfo 1))
        (({ Index := 0, Off := 0, Data := [], type := 1, Hash := [] } :: []) ++
          [{ Index := 0, Off := 0, Data := [], type := 8, Hash := [1] }])).1).fs.tmp ≠
      none) :=
  ⟨by decide, by decide, by decide, by decide, by decide, by decide, by decide, by decide,
    c2_close_mismatch_error_keeps_tmp (V1.Fs.mk (some [3]) none) (emptyInfo 1)
      { Index := 0, Off := 0, Data := [], type := 1, Hash := [] }
      { Index := 0, Off := 0, Data := [], type := 8, Hash := [1] } []
      (V1.FileMerger.mk true true 0 [] (emptyInfo 1) (V1.Fs.mk (some [3]) (some [])))
      (by decide) (by decide) (by decide) (by decide) (by decide) (by decide)
      (by decide) (by decide)⟩

theorem chunksAux_nil (B fuel : Nat) : chunksAux B fuel [] = [] := by
  cases fuel <;> rfl

theorem chunksAux_fuel_irrel (B : Nat) (hB : 1 ≤ B) :
    ∀ (n : Nat) (l : List Nat), l.length = n →
      ∀ (fuel fuel' : Nat), l.length ≤ fuel → l.length ≤ fuel' →
        chunksAux B fuel l = chunksAux B fuel' l := by
  intro n
  induction n using Nat.strong_induction_on with
  | _ n ih =>
    intro l hn fuel fuel' hf hf'
    cases l with
    | nil => rw [chunksAux_nil, chunksAux_nil]
    | cons x xs =>
      match fuel, fuel', hf, hf' with
      | f + 1, f' + 1, hf, hf' =>
        show ((x :: xs).take B) :: chunksAux B f ((x :: xs).drop B) =
          ((x :: xs).take B) :: chunksAux B f' ((x :: xs).drop B)
        have hlt : ((x :: xs).drop B).length < n := by
          simp only [List.length_drop]
          rw [← hn]
          simp only [List.length_cons]
          omega
        rw [ih _ hlt _ rfl f f'
          (by simp only [List.length_drop, List.length_cons] at *; omega)
          (by simp only [List.length_drop, List.length_cons] at *; omega)]

theorem chunksOf_cons (B : Nat) (hB : 1 ≤ B) (x : Nat) (xs : List Nat) :
    chunksOf B (x :: xs) = ((x :: xs).take B) :: chunksOf B ((x :: xs).drop B) := by
  show chunksAux B (x :: xs).length (x :: xs) = _
  have hlen : (x :: xs).length = xs.length + 1 := rfl
  rw [hlen]
  show ((x :: xs).take B) :: chunksAux B xs.length ((x :: xs).drop B) = _
  rw [chunksAux_fuel_irrel B hB ((x :: xs).drop B).length _ rfl xs.length
    ((x :: xs).drop B).length
    (by simp only [List.length_drop, List.length_cons]; omega) (le_refl _)]
  rfl

theorem chunksOf_flatten (B : Nat) (hB : 1 ≤ B) :
    ∀ (n : Nat) (l : List Nat), l.length = n → (chunksOf B l).flatten = l := by
  intro n
  induction n using Nat.strong_induction_on with
  | _ n ih =>
    intro l hn
    cases l with
    | nil => rfl
    | cons x xs =>
      rw [chunksOf_cons B hB]
      simp only [List.flatten_cons]
      have hlt : ((x :: xs).drop B).length < n := by
        simp only [List.length_drop]
        rw [← hn]
        simp only [List.length_cons]
        omega
      rw [ih _ hlt _ rfl]
      exact List.take_append_drop B (x :: xs)

theorem drop_take_length (l : List Nat) (B : Nat) :
    l.drop (l.take B).length = l.drop B := by
  simp only [List.length_take]
  rcases le_total B l.length with h | h
  · rw [min_eq_left h]
  · rw [min_eq_right h, List.drop_length, List.drop_eq_nil_of_le h]

theorem analyseLoop_succ {σ : Type} (S : List Nat) (info : V1.HashInfo)
    (mp : V1.HashMap') (bsize : Nat) (fsize : Int) (fn : V1.Sink σ) (fuel : Nat)
    (st : V1.AState σ) :
    V1.analyseLoop S info mp bsize fsize fn (fuel + 1) st =
      match V1.analyseStep S info mp bsize fsize fn st with
      | .exit st' res => (st', res)
      | .next st' => V1.analyseLoop S info mp bsize fsize fn fuel st' := rfl

theorem analyseStep_empty_data (S : List Nat) (B : Nat) (hB : 1 ≤ B)
    (info : V1.HashInfo) (hinfo : info.Blocks = []) (mp : V1.HashMap')
    (k : Nat) (hk : k < S.length) (a : Adler) (rd : V1.FileReader)
    (tr : List V1.AnalyseInfo) :
    V1.analyseStep S info mp B (S.length : Int) V1.okSink
      (V1.AState.mk (k : Int) [] [] a rd tr ()) =
    .next (V1.AState.mk ((k : Int) + ((((S.drop k).take B).length : Int) - 1) + 1)
      [] [] a
      (V1.FileReader.mk rd.Size rd.Off rd.Buf (rd.Hash ++ (S.drop k).take B))
      (tr ++ [V1.AnalyseInfo.mk 0 0 ((S.drop k).take B) 2 []]) ()) := by
  unfold V1.analyseStep
  dsimp only [V1.okSink, V1.AnalyseInfo.zero]
  rw [if_pos (by exact_mod_cast hk)]
  rw [if_pos (by simp [V1.HashInfo.isEmpty, hinfo])]
  rw [if_neg (by simp)]
  rw [if_neg (by
    rintro ⟨-, habs⟩
    have : (k : Int) < (S.length : Int) := by exact_mod_cast hk
    omega)]
  rw [Int.toNat_natCast]
  unfold V1.afterChecks
  rw [if_neg (by simp; omega)]
  dsimp only
  rw [if_neg (by simp; omega)]
  rfl

theorem analyseStep_empty_close (S : List Nat) (B : Nat) (info : V1.HashInfo)
    (mp : V1.HashMap') (k : Nat) (hk : ¬ (k < S.length)) (a : Adler)
    (rd : V1.FileReader) (tr : List V1.AnalyseInfo) :
    V1.analyseStep S info mp B (S.length : Int) V1.okSink
      (V1.AState.mk (k : Int) [] [] a rd tr ()) =
    .exit (V1.AState.mk (k : Int) [] [] a rd
      (tr ++ [V1.AnalyseInfo.mk 0 0 [] 8 (md5 rd.Hash)]) ()) .done := by
  unfold V1.analyseStep
  dsimp only [V1.okSink, V1.AnalyseInfo.zero]
  rw [if_neg (by
    intro habs
    exact hk (by exact_mod_cast habs))]
  rw [if_neg (by simp)]
  rfl

theorem analyseLoop_empty_sig (S : List Nat) (B : Nat) (hB : 1 ≤ B)
    (info : V1.HashInfo) (hinfo : info.Blocks = []) (mp : V1.HashMap') :
    ∀ (fuel : Nat) (rest : List Nat) (k : Nat) (a : Adler) (rd : V1.FileReader)
      (tr : List V1.AnalyseInfo),
      rest = S.drop k → k + rest.length = S.length → rest.length < fuel →
      V1.analyseLoop S info mp B (S.length : Int) V1.okSink fuel
        (V1.AState.mk (k : Int) [] [] a rd tr ()) =
      (V1.AState.mk (S.length : Int) [] [] a
        (V1.FileReader.mk rd.Size rd.Off rd.Buf (rd.Hash ++ rest))
        (tr ++ (chunksOf B rest).map (fun c => V1.AnalyseInfo.mk 0 0 c 2 []) ++
          [V1.AnalyseInfo.mk 0 0 [] 8 (md5 (rd.Hash ++ rest))]) (), .done) := by
  intro fuel
  induction fuel with
  | zero =>
    intro rest k a rd tr h1 h2 h3
    omega
  | succ fuel ih =>
    intro rest k a rd tr hrest hk hfuel
    rw [analyseLoop_succ]
    cases rest with
    | nil =>
      have hkS : k = S.length := by
        simp only [List.length_nil] at hk
        omega
      rw [analyseStep_empty_close S B info mp k (by omega) a rd tr]
      have hch : chunksOf B ([] : List Nat) = [] := rfl
      rw [hkS, hch]
      simp
    | cons x xs =>
      have hklt : k < S.length := by
        simp only [List.length_cons] at hk
        omega
      rw [analyseStep_empty_data S B hB info hinfo mp k hklt a rd tr]
      have hcast : (k : Int) + ((((S.drop k).take B).length : Int) - 1) + 1 =
          ((k + ((S.drop k).take B).length : Nat) : Int) := by
        push_cast
        ring
      rw [hcast]
      dsimp only
      have htdl : (x :: xs).drop ((x :: xs).take B).length = (x :: xs).drop B :=
        drop_take_length (x :: xs) B
      have hrest' : (x :: xs).drop B = S.drop (k + ((S.drop k).take B).length) := by
        rw [← hrest]
        rw [← List.drop_drop]
        rw [← hrest, htdl]
      have hlen1 : 1 ≤ ((x :: xs).take B).length := by
        simp only [List.length_take, List.length_cons]
        omega
      have hlensplit : ((x :: xs).take B).length + ((x :: xs).drop B).length =
          xs.length + 1 := by
        simp only [List.length_take, List.length_drop, List.length_cons]
        omega
      have hk' : (k + ((S.drop k).take B).length) + ((x :: xs).drop B).length =
          S.length := by
        rw [← hrest]
        simp only [List.length_cons] at hk
        omega
      have hfuel' : ((x :: xs).drop B).length < fuel := by
        simp only [List.length_drop, List.length_cons]
        simp only [List.length_cons] at hfuel
        omega
      rw [ih ((x :: xs).drop B) (k + ((S.drop k).take B).length) a
        (V1.FileReader.mk rd.Size rd.Off rd.Buf (rd.Hash ++ (S.drop k).take B))
        (tr ++ [V1.AnalyseInfo.mk 0 0 ((S.drop k).take B) 2 []])
        hrest' hk' hfuel']
      have hchunks : chunksOf B (x :: xs) =
          ((x :: xs).take B) :: chunksOf B ((x :: xs).drop B) := chunksOf_cons B hB x xs
      have htake : (S.drop k).take B = (x :: xs).take B := by rw [← hrest]
      have happjoin : (x :: xs).take B ++ (x :: xs).drop B = x :: xs :=
        List.take_append_drop B (x :: xs)
      rw [htake, hchunks]
      simp only [List.map_cons, List.append_assoc, List.cons_append, List.nil_append,
        List.singleton_append]
      simp only [List.append_assoc, happjoin]

theorem sourceFH_empty_sig (S : List Nat) (B : Nat) (hB : 1 ≤ B) (hS : S ≠ []) :
    sourceFH S (emptyInfo B) = V1.FileHashInfo.mk (some (emptyInfo B)) (some S) []
      (if S.length % B = 0 then ((S.length / B : Nat) : Int)
       else ((S.length / B : Nat) : Int) + 1)
      none B (S.length : Int) := by
  unfold sourceFH V1.NewFileHashInfoI V1.FileHashInfo.openFile emptyInfo
  dsimp only
  rw [if_neg (by omega)]
  rw [if_neg (by
    intro habs
    exact hS (List.length_eq_zero.mp habs))]
  rfl

theorem analyse_empty_sig_trace (S : List Nat) (B : Nat) (hB : 1 ≤ B) (hS : S ≠ []) :
    V1.analyse (sourceFH S (emptyInfo B)) V1.okSink () =
      (V1.AnalyseInfo.mk 0 (S.length : Int) [] 1 [] ::
         ((chunksOf B S).map (fun c => V1.AnalyseInfo.mk 0 0 c 2 []) ++
           [V1.AnalyseInfo.mk 0 0 [] 8 (md5 S)]), (), V1.ARes.done) := by
  rw [sourceFH_empty_sig S B hB hS]
  unfold V1.analyse
  dsimp only [V1.okSink, V1.AnalyseInfo.zero]
  have hfuel : S.length < (S.length + 2) * (B + 2) + 2 := by
    have h := Nat.le_mul_of_pos_right (S.length + 2) (show 0 < B + 2 by omega)
    omega
  have hloop := analyseLoop_empty_sig S B hB (emptyInfo B) rfl
    ((emptyInfo B).getMap) ((S.length + 2) * (B + 2) + 2) S 0 Adler.new
    (V1.NewFileReader B)
    [V1.AnalyseInfo.mk 0 (S.length : Int) [] 1 []] rfl (by omega) hfuel
  rw [Nat.cast_zero] at hloop
  dsimp only [V1.AnalyseTypeOpen]
  rw [hloop]
  simp [V1.NewFileReader]

/-- Claim C4 (amended): against an empty signature (no blocks), Analyse
on a non-empty source S with block size B ≥ 1 emits OPEN, then the
whole of S as DATA instructions (the B-chunks of S in order, whose
concatenation is S), then CLOSE with the md5 of S, and never emits an
INDEX instruction; but every DATA instruction's Off field is 0, not the
offset in S of its payload (the empty-signature branch never sets Off).
The degenerate single-short-block case does not take this branch in
this variant: IsEmpty tests only for zero blocks. -/
theorem c4_empty_signature_stream (S : List Nat) (B : Nat) (hB : 1 ≤ B) (hS : S ≠ []) :
    V1.analyse (sourceFH S (emptyInfo B)) V1.okSink () =
      (V1.AnalyseInfo.mk 0 (S.length : Int) [] 1 [] ::
         ((chunksOf B S).map (fun c => V1.AnalyseInfo.mk 0 0 c 2 []) ++
           [V1.AnalyseInfo.mk 0 0 [] 8 (md5 S)]), (), V1.ARes.done) ∧
    (chunksOf B S).flatten = S ∧
    (∀ i ∈ (V1.analyse (sourceFH S (emptyInfo B)) V1.okSink ()).1,
        i.IsIndex = false) ∧
    (∀ i ∈ (V1.analyse (sourceFH S (emptyInfo B)) V1.okSink ()).1,
        i.IsData = true → i.Off = 0) := by
  have htr := analyse_empty_sig_trace S B hB hS
  refine ⟨htr, chunksOf_flatten B hB S.length S rfl, ?_, ?_⟩
  · intro i hi
    rw [htr] at hi
    simp only [List.mem_cons, List.mem_append, List.mem_map, List.not_mem_nil,
      or_false] at hi
    rcases hi with h | ⟨c, -, h⟩ | h <;> subst h <;>
      simp only [V1.AnalyseInfo.IsIndex, V1.AnalyseTypeIndex] <;> decide
  · intro i hi
    rw [htr] at hi
    simp only [List.mem_cons, List.mem_append, List.mem_map, List.not_mem_nil,
      or_false] at hi
    rcases hi with h | ⟨c, -, h⟩ | h <;> subst h <;> intro hd
    · simp only [V1.AnalyseInfo.IsData, V1.AnalyseTypeData] at hd
      exact absurd hd (by decide)
    · rfl
    · simp only [V1.AnalyseInfo.IsData, V1.AnalyseTypeData] at hd
      exact absurd hd (by decide)

/-- Witness for C4 at S = [1,2,3], B = 2. -/
theorem c4_empty_signature_stream_witness :
    (1 ≤ 2 ∧ ([1, 2, 3] : List Nat) ≠ []) ∧
    (V1.analyse (sourceFH [1, 2, 3] (emptyInfo 2)) V1.okSink () =
      (V1.AnalyseInfo.mk 0 (([1, 2, 3] : List Nat).length : Int) [] 1 [] ::
         ((chunksOf 2 [1, 2, 3]).map (fun c => V1.AnalyseInfo.mk 0 0 c 2 []) ++
           [V1.AnalyseInfo.mk 0 0 [] 8 (md5 [1, 2, 3])]), (), V1.ARes.done) ∧
     (chunksOf 2 [1, 2, 3]).flatten = [1, 2, 3] ∧
     (∀ i ∈ (V1.analyse (sourceFH [1, 2, 3] (emptyInfo 2)) V1.okSink ()).1,
         i.IsIndex = false) ∧
     (∀ i ∈ (V1.analyse (sourceFH [1, 2, 3] (emptyInfo 2)) V1.okSink ()).1,
         i.IsData = true → i.Off = 0)) :=
  ⟨⟨by decide, by decide⟩,
    c4_empty_signature_stream [1, 2, 3] 2 (by decide) (by decide)⟩

theorem chunksOf_length_count (B : Nat) (hB : 1 ≤ B) :
    ∀ (n : Nat) (l : List Nat), l.length = n →
      (chunksOf B l).length =
        (if l.length % B = 0 then l.length / B else l.length / B + 1) := by
  intro n
  induction n using Nat.strong_induction_on with
  | _ n ih =>
    intro l hn
    cases l with
    | nil => simp [chunksOf, chunksAux]
    | cons x xs =>
      rw [chunksOf_cons B hB]
      simp only [List.length_cons]
      simp only [List.length_cons] at hn
      have hlt : ((x :: xs).drop B).length < n := by
        simp only [List.length_drop, List.length_cons]
        omega
      rw [ih _ hlt _ rfl]
      simp only [List.length_drop, List.length_cons]
      rcases le_or_lt (xs.length + 1) B with hmB | hBm
      · have h0 : xs.length + 1 - B = 0 := by omega
        rw [h0, if_pos (Nat.zero_mod B), Nat.zero_div]
        rcases eq_or_lt_of_le hmB with he | hlt2
        · rw [← he, Nat.mod_self, if_pos rfl, Nat.div_self (show 0 < xs.length + 1 by omega)]
        · rw [if_neg (by rw [Nat.mod_eq_of_lt hlt2]; omega), Nat.div_eq_of_lt hlt2]
      · have hle : B ≤ xs.length + 1 := le_of_lt hBm
        have hmod : (xs.length + 1) % B = (xs.length + 1 - B) % B :=
          Nat.mod_eq_sub_mod hle
        have hdiv : (xs.length + 1) / B = (xs.length + 1 - B) / B + 1 :=
          Nat.div_eq_sub_div (by omega) hle
        rw [hmod, hdiv]
        by_cases h : (xs.length + 1 - B) % B = 0
        · rw [if_pos h, if_pos h]
        · rw [if_neg h, if_neg h]

theorem p0_fillLoop_spec (T : List Nat) (B : Nat) (hB : 1 ≤ B) :
    ∀ (rem : Nat) (rest : List Nat) (i pos : Nat) (facc : List Nat)
      (blocks : List P0.HashBlock),
      rest = T.drop pos → rem = (chunksOf B rest).length →
      P0.fillLoop T B rem i pos facc blocks =
        .ok (blocks ++ p0BlocksFrom i pos (chunksOf B rest), facc ++ rest) := by
  intro rem
  induction rem with
  | zero =>
    intro rest i pos facc blocks hrest hrem
    cases rest with
    | nil => simp [P0.fillLoop, chunksOf, chunksAux, p0BlocksFrom]
    | cons x xs =>
      rw [chunksOf_cons B hB] at hrem
      simp at hrem
  | succ rem ih =>
    intro rest i pos facc blocks hrest hrem
    cases rest with
    | nil =>
      rw [show chunksOf B ([] : List Nat) = [] from rfl] at hrem
      simp at hrem
    | cons x xs =>
      unfold P0.fillLoop
      rw [← hrest]
      rw [if_neg (by
        rintro ⟨h1, -⟩
        rcases Nat.exists_eq_add_of_le hB with ⟨B', hBe⟩
        rw [hBe] at h1
        simp [List.take_succ_cons] at h1)]
      dsimp only
      have hrest' : (x :: xs).drop B = T.drop (pos + ((x :: xs).take B).length) := by
        rw [← List.drop_drop]
        rw [← hrest, drop_take_length]
      have hrem' : rem = (chunksOf B ((x :: xs).drop B)).length := by
        rw [chunksOf_cons B hB] at hrem
        simp only [List.length_cons] at hrem
        omega
      rw [ih ((x :: xs).drop B) (i + 1) (pos + ((x :: xs).take B).length)
        (facc ++ (x :: xs).take B) _ hrest' hrem']
      rw [chunksOf_cons B hB]
      have happ : (x :: xs).take B ++ (x :: xs).drop B = x :: xs :=
        List.take_append_drop B (x :: xs)
      simp only [p0BlocksFrom, List.append_assoc, List.cons_append, List.nil_append,
        List.singleton_append, happ]

theorem count_toNat_chunks (T : List Nat) (B : Nat) (hB : 1 ≤ B) :
    (if T.length % B = 0
        then (T.length : Int) / (B : Int)
        else (T.length : Int) / (B : Int) + 1).toNat =
      (chunksOf B T).length := by
  rw [chunksOf_length_count B hB T.length T rfl]
  rw [show (T.length : Int) / (B : Int) = ((T.length / B : Nat) : Int) from
    (Int.ofNat_div T.length B).symm]
  split
  · rw [Int.toNat_natCast]
  · rw [show ((T.length / B : Nat) : Int) + 1 = ((T.length / B + 1 : Nat) : Int) by
      push_cast
      ring]
    rw [Int.toNat_natCast]

theorem p0_sign_spec (T : List Nat) (B : Nat) (hB : 1 ≤ B) (hT : T ≠ []) :
    P0.sign T B =
      .ok (P0.HashInfo.mk (p0BlocksFrom 0 0 (chunksOf B T)) (some (md5 T)) B) := by
  have hcount := count_toNat_chunks T B hB
  unfold P0.sign P0.NewFileHashInfoB P0.FileHashInfo.openFile
  dsimp only
  rw [if_neg (by omega)]
  rw [if_neg (by
    intro habs
    exact hT (List.length_eq_zero.mp habs))]
  dsimp only [Bind.bind, Except.bind]
  unfold P0.FileHashInfo.fillHashInfo
  dsimp only
  rw [if_neg (by
    intro habs
    exact hT (List.length_eq_zero.mp (by exact_mod_cast habs)))]
  dsimp only [Bind.bind, Except.bind]
  rw [hcount]
  rw [p0_fillLoop_spec T B hB ((chunksOf B T).length) T 0 0 [] []
    (List.drop_zero T).symm rfl]
  dsimp only [P0.FileHashInfo.getHashInfo]
  simp

theorem p0BlocksFrom_length :
    ∀ (chs : List (List Nat)) (i pos : Nat),
      (p0BlocksFrom i pos chs).length = chs.length := by
  intro chs
  induction chs with
  | nil => intro i pos; rfl
  | cons c rest ih =>
    intro i pos
    simp only [p0BlocksFrom, List.length_cons, ih]

theorem chunksOf_getLast_length (B : Nat) (hB : 1 ≤ B) :
    ∀ (n : Nat) (l : List Nat), l.length = n → l ≠ [] → l.length % B ≠ 0 →
      ∃ c, (chunksOf B l).getLast? = some c ∧ c.length = l.length % B := by
  intro n
  induction n using Nat.strong_induction_on with
  | _ n ih =>
    intro l hn hne hmod
    cases l with
    | nil => exact absurd rfl hne
    | cons x xs =>
      rw [chunksOf_cons B hB]
      rcases hdrop : (x :: xs).drop B with _ | ⟨y, ys⟩
      · have hlen : (x :: xs).length ≤ B := by
          have h := congrArg List.length hdrop
          simp only [List.length_drop, List.length_nil] at h
          simp only [List.length_cons] at *
          omega
        have hlt : (x :: xs).length < B := by
          rcases eq_or_lt_of_le hlen with he | h
          · rw [he, Nat.mod_self] at hmod
            exact absurd rfl hmod
          · exact h
        refine ⟨(x :: xs).take B, rfl, ?_⟩
        rw [List.take_of_length_le (le_of_lt hlt), Nat.mod_eq_of_lt hlt]
      · have hBlen : B ≤ (x :: xs).length := by
          by_contra hc
          push_neg at hc
          rw [List.drop_eq_nil_of_le (le_of_lt hc)] at hdrop
          exact List.noConfusion hdrop
        have hdl := congrArg List.length hdrop
        simp only [List.length_drop] at hdl
        have hlt' : (y :: ys).length < n := by
          simp only [List.length_cons] at hn ⊢
          simp only [List.length_cons] at hdl
          omega
        have hmod'' : (y :: ys).length % B = (x :: xs).length % B := by
          rw [← hdl]
          exact (Nat.mod_eq_sub_mod hBlen).symm
        obtain ⟨c, hc1, hc2⟩ := ih _ hlt' (y :: ys) rfl (List.cons_ne_nil y ys)
          (by rw [hmod'']; exact hmod)
        refine ⟨c, ?_, by rw [hc2, hmod'']⟩
        rw [chunksOf_cons B hB y ys, List.getLast?_cons_cons,
          ← chunksOf_cons B hB y ys]
        exact hc1

/-- Claim C6 (amended): signer coverage holds of the earlier (part_000)
FillHashInfo: for every non-empty target T and block size B ≥ 1 it
returns one HashBlock per B-chunk of T in order (index i, byte offset
of the chunk, the chunk's length, adler halves and md5 as recorded by
p0BlocksFrom), the chunks concatenate back to T, the final chunk has
length |T| mod B when |T| is not a multiple of B, and the signature's
MD5 field is the md5 of all of T.  The map-based V1 FillHashInfo does
not satisfy this: it drops the short final block and digests only the
full blocks (see the C6 counterexample). -/
theorem c6_p0_signer_coverage (T : List Nat) (B : Nat) (hB : 1 ≤ B) (hT : T ≠ []) :
    P0.sign T B =
      .ok (P0.HashInfo.mk (p0BlocksFrom 0 0 (chunksOf B T)) (some (md5 T)) B) ∧
    (p0BlocksFrom 0 0 (chunksOf B T)).length = (chunksOf B T).length ∧
    (chunksOf B T).flatten = T ∧
    (T.length % B ≠ 0 →
      ∃ c, (chunksOf B T).getLast? = some c ∧ c.length = T.length % B) :=
  ⟨p0_sign_spec T B hB hT, p0BlocksFrom_length (chunksOf B T) 0 0,
    chunksOf_flatten B hB T.length T rfl,
    fun h => chunksOf_getLast_length B hB T.length T rfl hT h⟩

/-- Witness for C6 at T = [1,2,3], B = 2. -/
theorem c6_p0_signer_coverage_witness :
    (1 ≤ 2 ∧ ([1, 2, 3] : List Nat) ≠ []) ∧
    (P0.sign [1, 2, 3] 2 =
      .ok (P0.HashInfo.mk (p0BlocksFrom 0 0 (chunksOf 2 [1, 2, 3]))
        (some (md5 [1, 2, 3])) 2) ∧
     (p0BlocksFrom 0 0 (chunksOf 2 [1, 2, 3])).length = (chunksOf 2 [1, 2, 3]).length ∧
     (chunksOf 2 [1, 2, 3]).flatten = [1, 2, 3] ∧
     (([1, 2, 3] : List Nat).length % 2 ≠ 0 →
       ∃ c, (chunksOf 2 [1, 2, 3]).getLast? = some c ∧
         c.length = ([1, 2, 3] : List Nat).length % 2)) :=
  ⟨⟨by decide, by decide⟩, c6_p0_signer_coverage [1, 2, 3] 2 (by decide) (by decide)⟩

theorem keptToMap_snd : ∀ (kept : List (Nat × List Nat)) (j : Nat),
    (keptToMap j kept).map Prod.snd = keptToBlocks j kept := by
  intro kept
  induction kept with
  | nil => intro j; rfl
  | cons p rest ih =>
    intro j
    rcases p with ⟨k, c⟩
    simp only [keptToMap, keptToBlocks, List.map_cons, ih]

theorem keptToMap_length : ∀ (kept : List (Nat × List Nat)) (j : Nat),
    (keptToMap j kept).length = kept.length := by
  intro kept
  induction kept with
  | nil => intro j; rfl
  | cons p rest ih =>
    intro j
    rcases p with ⟨k, c⟩
    simp only [keptToMap, List.length_cons, ih]

theorem mapHasKey_contains (m : List (String × V1.HashBlock)) (s : String) :
    V1.mapHasKey m s = (m.map Prod.fst).contains s := by
  induction m with
  | nil => rfl
  | cons p rest ih =>
    simp only [V1.mapHasKey, List.any_cons, List.map_cons, List.contains_cons]
    simp only [V1.mapHasKey] at ih
    rw [ih]
    congr 1
    by_cases h : p.1 = s
    · simp [h]
    · simp [beq_eq_false_iff_ne.mpr h, beq_eq_false_iff_ne.mpr (Ne.symm h)]

theorem fullChunks_cons (B : Nat) (hB : 1 ≤ B) (l : List Nat) (hl : B ≤ l.length) :
    fullChunks B l = l.take B :: fullChunks B (l.drop B) := by
  unfold fullChunks
  rw [List.length_drop]
  rw [Nat.div_eq_sub_div (show 0 < B by omega) hl]
  rw [List.range_succ_eq_map]
  simp only [List.map_cons, List.map_map]
  congr 1
  · simp
  · congr 1
    funext i
    simp only [Function.comp]
    rw [List.drop_drop]
    congr 2
    rw [Nat.succ_mul]
    omega

theorem v1_fillLoop_spec (T : List Nat) (B : Nat) (hB : 1 ≤ B)
    (hlen32 : (chunksOf B T).length < 4294967296) :
    ∀ (rem : Nat) (rest : List Nat) (i : Nat) (facc : List Nat)
      (m : List (String × V1.HashBlock)) (seen : List String),
      rest = T.drop (i * B) →
      i + rem = (chunksOf B T).length →
      i ≤ T.length / B →
      m.length ≤ i →
      m.map Prod.fst = seen →
      V1.fillLoop T B rem i m.length facc m =
        .ok (m ++ keptToMap m.length (dedupGo i seen (fullChunks B rest)),
             facc ++ (fullChunks B rest).flatten) := by
  have hlen := chunksOf_length_count B hB T.length T rfl
  have hdm := Nat.div_add_mod T.length B
  have hmul := Nat.div_mul_le_self T.length B
  intro rem
  induction rem with
  | zero =>
    intro rest i facc m seen hrest hcnt hile hmle hseen
    have hmod : T.length % B = 0 := by
      by_contra hmod
      rw [if_neg hmod] at hlen
      omega
    rw [if_pos hmod] at hlen
    have hieq : i = T.length / B := by omega
    have hrnil : rest = [] := by
      rw [hrest]
      apply List.drop_eq_nil_of_le
      rw [hieq, Nat.mul_comm]
      omega
    rw [hrnil]
    rw [show fullChunks B ([] : List Nat) = [] by
      unfold fullChunks
      simp]
    simp [V1.fillLoop, dedupGo, keptToMap]
  | succ rem ih =>
    intro rest i facc m seen hrest hcnt hile hmle hseen
    have hrlen : rest.length = T.length - i * B := by
      rw [hrest, List.length_drop]
    rcases lt_or_eq_of_le hile with hlt | heq
    · -- a full block remains at block number i
      have hib : i * B + B ≤ T.length := by
        have h1 : (i + 1) * B ≤ (T.length / B) * B :=
          Nat.mul_le_mul_right B hlt
        rw [Nat.succ_mul] at h1
        omega
      have hrB : B ≤ rest.length := by omega
      have hdat : (rest.take B).length = B := by
        rw [List.length_take]
        omega
      unfold V1.fillLoop
      rw [← hrest]
      rw [if_neg (by
        rintro ⟨h1, -⟩
        rw [List.isEmpty_iff] at h1
        have hc := congrArg List.length h1
        rw [List.length_take, List.length_nil] at hc
        omega)]
      rw [if_neg (by
        intro hne
        exact hne hdat)]
      dsimp only
      rw [show i % 4294967296 = i from Nat.mod_eq_of_lt (by omega)]
      rw [show m.length % 4294967296 = m.length from Nat.mod_eq_of_lt (by omega)]
      rw [mapHasKey_contains, hseen]
      rw [fullChunks_cons B hB rest hrB]
      have hrest' : rest.drop B = T.drop ((i + 1) * B) := by
        rw [hrest, List.drop_drop]
        congr 1
        rw [Nat.succ_mul]
      by_cases hkey : seen.contains (hexEncode (md5 (rest.take B))) = true
      · rw [if_pos hkey]
        rw [ih (rest.drop B) (i + 1) (facc ++ rest.take B) m seen hrest'
          (by omega) hlt (by omega) hseen]
        simp only [dedupGo, if_pos hkey, List.flatten_cons, List.append_assoc]
      · rw [if_neg hkey]
        rw [show m.length + 1 =
          (m ++ [(hexEncode (md5 (rest.take B)),
            (⟨m.length, i, adler32 (rest.take B) &&& 65535,
              adler32 (rest.take B) >>> 16 &&& 65535,
              md5 (rest.take B)⟩ : V1.HashBlock))]).length by simp]
        rw [ih (rest.drop B) (i + 1) (facc ++ rest.take B)
          (m ++ [(hexEncode (md5 (rest.take B)),
            (⟨m.length, i, adler32 (rest.take B) &&& 65535,
              adler32 (rest.take B) >>> 16 &&& 65535,
              md5 (rest.take B)⟩ : V1.HashBlock))])
          (seen ++ [hexEncode (md5 (rest.take B))]) hrest'
          (by omega) hlt (by simp; omega) (by simp [hseen])]
        simp only [dedupGo, if_neg hkey, keptToMap, List.flatten_cons,
          List.append_assoc, List.length_append, List.length_cons,
          List.length_nil, List.cons_append, List.nil_append,
          List.singleton_append]
    · -- i is the number of full blocks: the remaining chunk is short
      have hmod : T.length % B ≠ 0 := by
        by_contra hmod
        rw [if_pos hmod] at hlen
        omega
      rw [if_neg hmod] at hlen
      have hcomm : i * B = B * (T.length / B) := by
        rw [heq, Nat.mul_comm]
      have hrlen2 : rest.length = T.length % B := by omega
      have hmlt : T.length % B < B := Nat.mod_lt T.length (by omega)
      have hrne : rest ≠ [] := by
        intro habs
        rw [habs] at hrlen2
        simp at hrlen2
        omega
      have htake : rest.take B = rest :=
        List.take_of_length_le (by omega)
      unfold V1.fillLoop
      rw [← hrest, htake]
      rw [if_neg (by
        rintro ⟨h1, -⟩
        rw [List.isEmpty_iff] at h1
        exact hrne h1)]
      rw [if_pos (by omega)]
      rw [show fullChunks B rest = [] by
        unfold fullChunks
        rw [Nat.div_eq_of_lt (by omega)]
        rfl]
      simp [dedupGo, keptToMap]

theorem sortByIdx_keptToBlocks : ∀ (kept : List (Nat × List Nat)) (j : Nat),
    V1.sortByIdx (keptToBlocks j kept) = keptToBlocks j kept := by
  intro kept
  induction kept with
  | nil => intro j; rfl
  | cons p rest ih =>
    intro j
    rcases p with ⟨k, c⟩
    show V1.sortByIdx (_ :: keptToBlocks (j + 1) rest) = _
    simp only [V1.sortByIdx, List.foldr_cons]
    rw [show List.foldr V1.insertByIdx [] (keptToBlocks (j + 1) rest) =
      V1.sortByIdx (keptToBlocks (j + 1) rest) from rfl]
    rw [ih (j + 1)]
    cases rest with
    | nil => rfl
    | cons q rest' =>
      rcases q with ⟨k', c'⟩
      show V1.insertByIdx _ (_ :: _) = _
      unfold V1.insertByIdx
      rw [if_pos (by show j < j + 1; omega)]
      rfl

theorem v1_getFileHashInfo_spec (T : List Nat) (B : Nat) (hB : 1 ≤ B)
    (hB16 : B < 65536) (hT : T ≠ [])
    (hlen32 : (chunksOf B T).length < 4294967296) :
    V1.GetFileHashInfo (some T) B =
      .ok (V1.HashInfo.mk (keptToBlocks 0 (dedupKept (fullChunks B T)))
        (some (md5 (fullChunks B T).flatten)) B) := by
  have hcount := count_toNat_chunks T B hB
  have hspec := v1_fillLoop_spec T B hB hlen32 ((chunksOf B T).length) T 0 [] [] []
    (by simp) (by omega) (Nat.zero_le _) (by simp) rfl
  simp only [List.length_nil, List.nil_append] at hspec
  unfold V1.GetFileHashInfo V1.NewFileHashInfoB V1.FileHashInfo.openFile
  dsimp only
  rw [show B % 65536 = B from Nat.mod_eq_of_lt hB16]
  rw [if_neg (by omega)]
  rw [if_neg (by
    intro habs
    exact hT (List.length_eq_zero.mp habs))]
  dsimp only [Bind.bind, Except.bind]
  unfold V1.FileHashInfo.fillHashInfo
  dsimp only
  rw [if_neg (by
    intro habs
    exact hT (List.length_eq_zero.mp (by exact_mod_cast habs)))]
  dsimp only [Bind.bind, Except.bind]
  rw [hcount, hspec]
  dsimp only [V1.FileHashInfo.getHashInfo]
  rw [keptToMap_snd]
  rw [sortByIdx_keptToBlocks]
  rfl

theorem dedupGo_spec : ∀ (cs : List (List Nat)) (i : Nat) (seen : List String),
    (∀ p ∈ dedupGo i seen cs,
      hexEncode (md5 p.2) ∉ seen ∧
      cs.findIdx (fun c => hexEncode (md5 c) == hexEncode (md5 p.2)) + i = p.1) ∧
    (dedupGo i seen cs).Pairwise
      (fun p q => hexEncode (md5 p.2) ≠ hexEncode (md5 q.2)) := by
  intro cs
  induction cs with
  | nil =>
    intro i seen
    constructor
    · intro p hp
      cases hp
    · exact List.Pairwise.nil
  | cons c cs ih =>
    intro i seen
    by_cases h : seen.contains (hexEncode (md5 c)) = true
    · have hrw : dedupGo i seen (c :: cs) = dedupGo (i + 1) seen cs := by
        simp only [dedupGo, if_pos h]
      rw [hrw]
      constructor
      · intro p hp
        obtain ⟨h1, h2⟩ := (ih (i + 1) seen).1 p hp
        refine ⟨h1, ?_⟩
        have hcm : hexEncode (md5 c) ∈ seen := List.mem_of_elem_eq_true h
        have hne : (hexEncode (md5 c) == hexEncode (md5 p.2)) = false := by
          rw [beq_eq_false_iff_ne]
          intro he
          exact h1 (he ▸ hcm)
        rw [List.findIdx_cons, hne]
        simp only [cond_false]
        omega
      · exact (ih (i + 1) seen).2
    · have hrw : dedupGo i seen (c :: cs) =
          (i, c) :: dedupGo (i + 1) (seen ++ [hexEncode (md5 c)]) cs := by
        simp only [dedupGo, if_neg h]
      rw [hrw]
      constructor
      · intro p hp
        rcases List.mem_cons.mp hp with hph | hp'
        · subst hph
          refine ⟨?_, ?_⟩
          · intro hmem
            exact h (List.elem_eq_true_of_mem hmem)
          · rw [List.findIdx_cons]
            simp
        · obtain ⟨h1, h2⟩ := (ih (i + 1) (seen ++ [hexEncode (md5 c)])).1 p hp'
          have hnotseen : hexEncode (md5 p.2) ∉ seen := by
            intro hm
            exact h1 (List.mem_append_left _ hm)
          have hnekey : (hexEncode (md5 c) == hexEncode (md5 p.2)) = false := by
            rw [beq_eq_false_iff_ne]
            intro he
            exact h1 (List.mem_append_right _ (he ▸ List.mem_singleton_self _))
          refine ⟨hnotseen, ?_⟩
          rw [List.findIdx_cons, hnekey]
          simp only [cond_false]
          omega
      · refine List.Pairwise.cons ?_ (ih (i + 1) (seen ++ [hexEncode (md5 c)])).2
        intro q hq
        obtain ⟨h1, -⟩ := (ih (i + 1) (seen ++ [hexEncode (md5 c)])).1 q hq
        intro he
        exact h1 (he ▸ List.mem_append_right _ (List.mem_singleton_self _))

theorem keptToBlocks_map_H3 : ∀ (kept : List (Nat × List Nat)) (j : Nat),
    (keptToBlocks j kept).map (fun b => b.H3) = kept.map (fun p => md5 p.2) := by
  intro kept
  induction kept with
  | nil => intro j; rfl
  | cons p rest ih =>
    intro j
    rcases p with ⟨k, c⟩
    simp only [keptToBlocks, List.map_cons, ih]

theorem keptToBlocks_map_Idx : ∀ (kept : List (Nat × List Nat)) (j : Nat),
    (keptToBlocks j kept).map (fun b => b.Idx) = List.range' j kept.length := by
  intro kept
  induction kept with
  | nil => intro j; rfl
  | cons p rest ih =>
    intro j
    rcases p with ⟨k, c⟩
    simp only [keptToBlocks, List.map_cons, ih, List.length_cons, List.range'_succ]

theorem keptToBlocks_mem : ∀ (kept : List (Nat × List Nat)) (j : Nat)
    (b : V1.HashBlock), b ∈ keptToBlocks j kept →
      ∃ p ∈ kept, b.H3 = md5 p.2 ∧ b.Off = p.1 := by
  intro kept
  induction kept with
  | nil => intro j b hb; cases hb
  | cons p rest ih =>
    intro j b hb
    rcases p with ⟨k, c⟩
    rcases List.mem_cons.mp hb with hbh | hb'
    · exact ⟨(k, c), List.mem_cons_self _ _, by rw [hbh], by rw [hbh]⟩
    · obtain ⟨q, hq1, hq2, hq3⟩ := ih (j + 1) b hb'
      exact ⟨q, List.mem_cons_of_mem _ hq1, hq2, hq3⟩

/-- Claim C10: the map-based V1 FillHashInfo keeps, among the full
B-blocks of T, only the first block of each distinct md5 digest (the
short final block is never read, and every full block — duplicates
included — feeds the whole-file md5): the returned signature is exactly
keptToBlocks over the first-occurrence deduplication of the full
chunks, its blocks carry pairwise-distinct strong hashes H3, their Idx
fields are contiguous from 0 in kept order, and each block's Off field
is the block number of the first full chunk of T with its digest.
The hypotheses are the Go wire types' ranges: B fits the uint16
BlockSize the constructor truncates to, and the block count fits the
uint32 Idx and Off fields the signer stores through. -/
theorem c10_v1_signer_dedup (T : List Nat) (B : Nat) (hB : 1 ≤ B)
    (hB16 : B < 65536) (hT : T ≠ [])
    (hlen32 : (chunksOf B T).length < 4294967296) :
    V1.GetFileHashInfo (some T) B =
      .ok (V1.HashInfo.mk (keptToBlocks 0 (dedupKept (fullChunks B T)))
        (some (md5 (fullChunks B T).flatten)) B) ∧
    (keptToBlocks 0 (dedupKept (fullChunks B T))).Pairwise
      (fun a b => a.H3 ≠ b.H3) ∧
    (keptToBlocks 0 (dedupKept (fullChunks B T))).map (fun b => b.Idx) =
      List.range' 0 (dedupKept (fullChunks B T)).length ∧
    (∀ b ∈ keptToBlocks 0 (dedupKept (fullChunks B T)),
      (fullChunks B T).findIdx
        (fun c => hexEncode (md5 c) == hexEncode b.H3) = b.Off) := by
  have hd := dedupGo_spec (fullChunks B T) 0 []
  refine ⟨v1_getFileHashInfo_spec T B hB hB16 hT hlen32, ?_,
    keptToBlocks_map_Idx _ 0, ?_⟩
  · have hpk : (dedupKept (fullChunks B T)).Pairwise
        (fun p q => md5 p.2 ≠ md5 q.2) := by
      refine hd.2.imp ?_
      intro p q hne he
      exact hne (he ▸ rfl)
    have hmap := keptToBlocks_map_H3 (dedupKept (fullChunks B T)) 0
    have h2 := List.pairwise_map.mpr hpk
    rw [← hmap] at h2
    exact List.pairwise_map.mp h2
  · intro b hb
    obtain ⟨p, hp, hH3, hOff⟩ := keptToBlocks_mem _ 0 b hb
    obtain ⟨-, hidx⟩ := hd.1 p hp
    rw [hH3, hOff]
    omega

/-- Witness for C10 at T = [1,2,1,2,3], B = 2 (two identical full
blocks and a dropped short tail). -/
theorem c10_v1_signer_dedup_witness :
    (1 ≤ 2 ∧ 2 < 65536 ∧ ([1, 2, 1, 2, 3] : List Nat) ≠ [] ∧
      (chunksOf 2 [1, 2, 1, 2, 3]).length < 4294967296) ∧
    (V1.GetFileHashInfo (some [1, 2, 1, 2, 3]) 2 =
      .ok (V1.HashInfo.mk (keptToBlocks 0 (dedupKept (fullChunks 2 [1, 2, 1, 2, 3])))
        (some (md5 (fullChunks 2 [1, 2, 1, 2, 3]).flatten)) 2) ∧
     (keptToBlocks 0 (dedupKept (fullChunks 2 [1, 2, 1, 2, 3]))).Pairwise
       (fun a b => a.H3 ≠ b.H3) ∧
     (keptToBlocks 0 (dedupKept (fullChunks 2 [1, 2, 1, 2, 3]))).map (fun b => b.Idx) =
       List.range' 0 (dedupKept (fullChunks 2 [1, 2, 1, 2, 3])).length ∧
     (∀ b ∈ keptToBlocks 0 (dedupKept (fullChunks 2 [1, 2, 1, 2, 3])),
       (fullChunks 2 [1, 2, 1, 2, 3]).findIdx
         (fun c => hexEncode (md5 c) == hexEncode b.H3) = b.Off)) :=
  ⟨⟨by decide, by decide, by decide, by decide⟩,
    c10_v1_signer_dedup [1, 2, 1, 2, 3] 2 (by decide) (by decide) (by decide)
      (by decide)⟩
